import Mathlib

/-!
Verification development for the embedded GIF stream decoder of the
Flick-Out firmware (file src/Flick-Out/Flick-Out.ino, GifClass).

The decoder is shallowly embedded: the byte source (an Arduino File) is a
list of bytes with a cursor, the GifClass buffered reader is a record of
its four fields (gif_buf, gif_buf_last_idx, gif_buf_idx, file_pos) plus
the file handle, and every decoder routine is translated clause by clause
from the C source.  Machine integers are modelled as Nat (all quantities
relevant to the claims stay far below the int16/int32 bounds; uint8
wraparound is modelled with explicit mod 256 where the source can wrap).
Loops take explicit fuel and return Option; the source loops have no
bound, so theorems about complete decodes carry the hypothesis that the
run finishes within the given fuel.

Ghost fields (emits, trace, ok) accumulate observations of the run: the
emitted pixels before the transparency filter, the code width and table
fill at each code read, and whether every table lookup stayed below the
current entry count.  They never influence the computed pixel buffer or
reader state, which are translated from the source alone.
-/

namespace FlickOut

/-- Seekable byte source standing for the Arduino File handle: a list of
bytes and a read position.  fileRead models fd.read(buf, n): it delivers
at most n bytes starting at pos (short read at end of file) and advances
pos; fileSeekSet models fd.seek(p, SeekSet). -/
structure GFile where
  data : List Nat
  pos : Nat
deriving DecidableEq

def fileRead (f : GFile) (n : Nat) : List Nat × GFile :=
  let chunk := (f.data.drop f.pos).take n
  (chunk, { f with pos := f.pos + chunk.length })

def fileSeekSet (f : GFile) (p : Nat) : GFile :=
  { f with pos := p }

/-- Size of the GifClass read buffer (GIF_BUF_SIZE in the source). -/
def GIF_BUF_SIZE : Nat := 1024

/-- State of the GifClass buffered reader: the 1024-byte buffer gif_buf
(kept at length 1024; fd.read overwrites its first chunk-length bytes and
leaves the tail stale, as in C), gif_buf_last_idx, gif_buf_idx, the
absolute consumed-byte counter file_pos, and the file handle. -/
structure BufState where
  gif_buf : List Nat
  gif_buf_last_idx : Nat
  gif_buf_idx : Nat
  file_pos : Nat
  fd : GFile
deriving DecidableEq

/-- Fresh reader state as set up at the top of gd_open_gif:
gif_buf_last_idx = GIF_BUF_SIZE, gif_buf_idx = gif_buf_last_idx,
file_pos = 0.  The C gif_buf lives in a zero-initialised global GifClass
instance, hence the 1024 zero bytes. -/
def initBufState (data : List Nat) : BufState :=
  { gif_buf := List.replicate GIF_BUF_SIZE 0
    gif_buf_last_idx := GIF_BUF_SIZE
    gif_buf_idx := GIF_BUF_SIZE
    file_pos := 0
    fd := { data := data, pos := 0 } }

/-- One byte through the buffered reader, translating the single-byte
gif_buf_read: refill the buffer from the file when gif_buf_idx has
reached gif_buf_last_idx, then serve gif_buf[gif_buf_idx++] and count
file_pos++. -/
def gif_buf_read1 (s : BufState) : Nat × BufState :=
  let s :=
    if s.gif_buf_idx = s.gif_buf_last_idx then
      let r := fileRead s.fd GIF_BUF_SIZE
      { s with gif_buf := r.1 ++ s.gif_buf.drop r.1.length
               gif_buf_last_idx := r.1.length
               gif_buf_idx := 0
               fd := r.2 }
    else s
  (s.gif_buf.getD s.gif_buf_idx 0,
   { s with file_pos := s.file_pos + 1, gif_buf_idx := s.gif_buf_idx + 1 })

/-- Multi-byte gif_buf_read: n consecutive single-byte reads, returning
the bytes in order. -/
def gif_buf_readN : Nat → BufState → List Nat × BufState
  | 0, s => ([], s)
  | n + 1, s =>
    let r := gif_buf_read1 s
    let rest := gif_buf_readN n r.2
    (r.1 :: rest.1, rest.2)

/-- Little-endian 16-bit read gif_buf_read16: low byte first, then the
high byte shifted left by 8. -/
def gif_buf_read16 (s : BufState) : Nat × BufState :=
  let lo := gif_buf_read1 s
  let hi := gif_buf_read1 lo.2
  (lo.1 + hi.1 <<< 8, hi.2)

/-- Forward skip gif_buf_seek: when len exceeds the bytes still buffered
(gif_buf_last_idx - gif_buf_idx) the source is sought to
file_pos + len - (gif_buf_last_idx - gif_buf_idx) and the buffer marked
consumed; otherwise only gif_buf_idx advances.  file_pos grows by len in
both branches. -/
def gif_buf_seek (s : BufState) (len : Nat) : BufState :=
  if s.gif_buf_last_idx - s.gif_buf_idx < len then
    { s with fd := fileSeekSet s.fd
               (s.file_pos + len - (s.gif_buf_last_idx - s.gif_buf_idx))
             gif_buf_idx := s.gif_buf_last_idx
             file_pos := s.file_pos + len }
  else
    { s with gif_buf_idx := s.gif_buf_idx + len
             file_pos := s.file_pos + len }

/-- Decoded palette gd_Palette: entry count and the 16-bit colors. -/
structure gd_Palette where
  len : Nat
  colors : List Nat
deriving DecidableEq

/-- Graphic control state gd_GCE. -/
structure gd_GCE where
  delay : Nat
  tindex : Nat
  disposal : Nat
  input : Nat
  transparency : Nat
deriving DecidableEq

/-- Dictionary entry gd_Entry; pfx models the C field named prefix
(0xFFF is the root sentinel). -/
structure gd_Entry where
  len : Nat
  pfx : Nat
  suffix : Nat
deriving DecidableEq

/-- Dictionary table gd_Table: live entry count plus the 4096-entry
arena.  new_table leaves the arena uninitialised in C; the model starts
from zeroed entries, and no theorem in this file depends on an entry
that the modelled session has not written. -/
structure gd_Table where
  nentries : Nat
  entries : List gd_Entry
deriving DecidableEq

def new_table : gd_Table :=
  { nentries := 0, entries := List.replicate 4096 { len := 0, pfx := 0, suffix := 0 } }

/-- Translation of reset_table: nentries = (1 shl key_size) + 2 and each
root code 0 <= key < (1 shl key_size) becomes the one-pixel entry
(1, 0xFFF, key).  Entries above the root region keep their old bytes. -/
def reset_table (t : gd_Table) (key_size : Nat) : gd_Table :=
  { nentries := 2 ^ key_size + 2
    entries := (List.range (2 ^ key_size)).foldl
      (fun es key => es.set key { len := 1, pfx := 0xFFF, suffix := key }) t.entries }

/-- Translation of add_entry: the new entry lands at index nentries,
the count grows, and the return flag is 1 exactly when the grown count
is a power of two (nentries and (nentries - 1) == 0). -/
def add_entry (t : gd_Table) (len : Nat) (pfx : Nat) (suffix : Nat) : gd_Table × Nat :=
  let t := { nentries := t.nentries + 1
             entries := t.entries.set t.nentries { len := len, pfx := pfx, suffix := suffix } }
  (t, if t.nentries &&& (t.nentries - 1) = 0 then 1 else 0)

/-- Color conversion applied by read_palette to every RGB triple:
((r and 0xF8) shl 8) or ((g and 0xFC) shl 3) or ((b and 0xF8) shr 3). -/
def gifColor565 (r g b : Nat) : Nat :=
  ((r &&& 0xF8) <<< 8) ||| ((g &&& 0xFC) <<< 3) ||| ((b &&& 0xF8) >>> 3)

/-- Reading loop of read_palette: n converted RGB triples in order. -/
def read_palette_go : Nat → BufState → List Nat × BufState
  | 0, s => ([], s)
  | n + 1, s =>
    let r := gif_buf_read1 s
    let g := gif_buf_read1 r.2
    let b := gif_buf_read1 g.2
    let rest := read_palette_go n b.2
    (gifColor565 r.1 g.1 b.1 :: rest.1, rest.2)

/-- Translation of read_palette: num_colors RGB triples are read in
order and stored converted; dest.len becomes num_colors. -/
def read_palette (s : BufState) (num_colors : Nat) : gd_Palette × BufState :=
  let r := read_palette_go num_colors s
  ({ len := num_colors, colors := r.1 }, r.2)

/-- Translation of interlaced_line_index on C int16 arithmetic; Int.tdiv
is the C truncating division (this matters for h < 5, where h - 5 is
negative). -/
def interlaced_line_index (h y : Int) : Int :=
  let p1 := Int.tdiv (h - 1) 8 + 1
  if y < p1 then y * 8
  else
    let y2 := y - p1
    let p2 := Int.tdiv (h - 5) 8 + 1
    if y2 < p2 then y2 * 8 + 4
    else
      let y3 := y2 - p2
      let p3 := Int.tdiv (h - 3) 4 + 1
      if y3 < p3 then y3 * 4 + 2
      else (y3 - p3) * 2 + 1

/-- Nat wrapper used by the pixel-placement code, which assigns the
result to the int32 row variable and only ever uses it on in-range
frames. -/
def iliNat (h y : Nat) : Nat :=
  (interlaced_line_index (h : Int) (y : Int)).toNat

/-- Decoder session gd_GIF (the File pointer is carried separately in
BufState; paletteLocal models the palette pointer, which aims at lct
exactly when a local color table was read for the current frame). -/
structure gd_GIF where
  anim_start : Nat
  width : Nat
  height : Nat
  depth : Nat
  loop_count : Nat
  gce : gd_GCE
  paletteLocal : Bool
  lct : gd_Palette
  gct : gd_Palette
  fx : Nat
  fy : Nat
  fw : Nat
  fh : Nat
  bgindex : Nat
  table : gd_Table
  processed_first_frame : Bool
deriving DecidableEq

/-- Bit-reader state threaded through get_key: the current sub-block
remaining length, the bit shift, the last byte read, and the buffered
reader. -/
structure KeySt where
  sub_len : Nat
  shift : Nat
  byte : Nat
  bs : BufState
deriving DecidableEq

/-- Byte fetch of get_key, reached when rpad = 0: refresh the
sub-block length when exhausted, read the working byte, and decrement
sub_len with uint8 wraparound. -/
def get_key_fetch (st : KeySt) : KeySt :=
  let st :=
    if st.sub_len = 0 then
      let r := gif_buf_read1 st.bs
      { st with sub_len := r.1, bs := r.2 }
    else st
  let r := gif_buf_read1 st.bs
  { st with byte := r.1, bs := r.2, sub_len := (st.sub_len + 255) % 256 }

/-- Body of the get_key for-loop.  Each pass consumes frag_size =
min(key_size - bits_read, 8 - rpad) >= 1 bits, so fuel = key_size
suffices. -/
def get_key_go (key_size : Nat) : Nat → Nat → Nat → KeySt → Nat × KeySt
  | 0, _, key, st => (key, st)
  | fuel + 1, bits_read, key, st =>
    if bits_read < key_size then
      let st :=
        if (st.shift + bits_read) % 8 = 0 then get_key_fetch st
        else st
      let rpad := (st.shift + bits_read) % 8
      let frag_size := min (key_size - bits_read) (8 - rpad)
      let key := (key ||| ((st.byte >>> rpad) <<< bits_read)) % 65536
      get_key_go key_size fuel (bits_read + frag_size) key st
    else (key, st)

/-- Translation of get_key: assemble key_size bits starting at the
current shift, mask to key_size bits, and advance shift mod 8. -/
def get_key (key_size : Nat) (st : KeySt) : Nat × KeySt :=
  let r := get_key_go key_size key_size 0 0 st
  (r.1 &&& ((1 <<< key_size) - 1),
   { r.2 with shift := (r.2.shift + key_size) % 8 })

/-- Per-frame constants of the decode loop in read_image_data. -/
structure DecCtx where
  clear : Nat
  stop : Nat
  tindex : Nat
  pf : Bool
  interlace : Bool
  fx : Nat
  fy : Nat
  fw : Nat
  fh : Nat
  width : Nat
deriving DecidableEq

/-- Mutable state of the read_image_data loop.  The fields up to frame
are the C locals and the session table; emits records every pixel
emission (destination index, pixel index) before the transparency
filter, trace records (key_size, nentries) at each get_key call, and ok
records that every dictionary lookup (top-level code and prefix chain)
stayed below nentries.  The ghost fields never feed back into the
others. -/
structure DecSt where
  bs : BufState
  table : gd_Table
  key_size : Nat
  init_key_size : Nat
  sub_len : Nat
  shift : Nat
  byte : Nat
  table_is_full : Bool
  ret : Nat
  str_len : Nat
  entry : gd_Entry
  frm_off : Nat
  key : Nat
  frame : List Nat
  emits : List (Nat × Nat × Nat)
  trace : List (Nat × Nat)
  ok : Bool
deriving DecidableEq

/-- Result of the inner emission walk. -/
structure WalkRes where
  entry : gd_Entry
  frame : List Nat
  emits : List (Nat × Nat × Nat)
  ok : Bool
deriving DecidableEq

/-- Destination byte index of the pixel at linear position p, as
computed in the inner loop: x = p mod fw, y = p div fw (re-mapped by
interlaced_line_index when interlacing), destination
(fy + y) * width + fx + x. -/
def emitDest (ctx : DecCtx) (p : Nat) : Nat :=
  let x := p % ctx.fw
  let y0 := p / ctx.fw
  let y := if ctx.interlace then iliNat ctx.fh y0 else y0
  (ctx.fy + y) * ctx.width + ctx.fx + x

/-- Conditional store of one emission e = (p, dest, suffix), exactly
the guarded assignment frame[dest] = suffix of the source: skipped only
when processed_first_frame holds and the emitted index equals
gce.tindex. -/
def condWrite (pf : Bool) (tindex : Nat) (frame : List Nat) (e : Nat × Nat × Nat) :
    List Nat :=
  if (!pf) || (tindex ≠ e.2.2) then frame.set e.2.1 e.2.2 else frame

/-- Inner while-loop of read_image_data: emit the string of the current
entry in reverse by walking the prefix chain, writing each pixel through
the transparency filter.  The source loop has no bound (a corrupted
chain can cycle), hence the fuel; fuel exhaustion clears ok.  The ghost
ok stays true only while every prefix step aims at a live data entry
(below nentries and distinct from the clear and stop slots, which
reset_table leaves stale). -/
def emit_walk (ctx : DecCtx) (t : gd_Table) :
    Nat → gd_Entry → Nat → List Nat → WalkRes
  | 0, entry, _, frame => { entry := entry, frame := frame, emits := [], ok := false }
  | fuel + 1, entry, frm_off, frame =>
    let p := frm_off + entry.len - 1
    let dest := emitDest ctx p
    let frame := condWrite ctx.pf ctx.tindex frame (p, dest, entry.suffix)
    if entry.pfx = 0xFFF then
      { entry := entry, frame := frame, emits := [(p, dest, entry.suffix)], ok := true }
    else
      let ok1 := decide (entry.pfx < t.nentries ∧ entry.pfx ≠ ctx.clear ∧ entry.pfx ≠ ctx.stop)
      let r := emit_walk ctx t fuel
        (t.entries.getD entry.pfx { len := 0, pfx := 0, suffix := 0 }) frm_off frame
      { entry := r.entry, frame := r.frame,
        emits := (p, dest, entry.suffix) :: r.emits, ok := ok1 && r.ok }

/-- Fuel given to the inner walk; a well-formed chain visits each table
index at most once, so 4096 steps always reach the root. -/
def WALK_FUEL : Nat := 4096

/-- First half of one while(1) iteration of read_image_data: process
the previous key (clear-reset, or add_entry when the table is not full,
with the freeze at 0x1000 entries), record the ghost trace entry, and
read the next key. -/
def decode_dict (ctx : DecCtx) (st : DecSt) : DecSt :=
  let st :=
    if st.key = ctx.clear then
      { st with key_size := st.init_key_size
                table := { st.table with nentries := 2 ^ (st.init_key_size - 1) + 2 }
                table_is_full := false }
    else if st.table_is_full = false then
      let r := add_entry st.table (st.str_len + 1) st.key st.entry.suffix
      if r.1.nentries = 0x1000 then
        { st with table := r.1, ret := 0, table_is_full := true }
      else { st with table := r.1, ret := r.2 }
    else st
  let st := { st with trace := st.trace ++ [(st.key_size, st.table.nentries)] }
  let kr := get_key st.key_size
    { sub_len := st.sub_len, shift := st.shift, byte := st.byte, bs := st.bs }
  { st with key := kr.1, sub_len := kr.2.sub_len, shift := kr.2.shift,
            byte := kr.2.byte, bs := kr.2.bs }

/-- Second half of one while(1) iteration, reached when the key just
read is neither clear nor stop: grow key_size when the previous add
crossed a power of two, look up the entry, emit its string, advance
frm_off, and patch the suffix of the newest entry. -/
def decode_body (ctx : DecCtx) (st : DecSt) : DecSt :=
  let st := if st.ret = 1 then { st with key_size := st.key_size + 1 } else st
  let st := { st with ok := st.ok && decide (st.key < st.table.nentries) }
  let entry0 := st.table.entries.getD st.key { len := 0, pfx := 0, suffix := 0 }
  let st := { st with entry := entry0, str_len := entry0.len }
  let w := emit_walk ctx st.table WALK_FUEL entry0 st.frm_off st.frame
  let st := { st with entry := w.entry, frame := w.frame,
                      emits := st.emits ++ w.emits, ok := st.ok && w.ok,
                      frm_off := st.frm_off + st.str_len }
  if st.key < st.table.nentries - 1 ∧ st.table_is_full = false then
    let i := st.table.nentries - 1
    let e := st.table.entries.getD i { len := 0, pfx := 0, suffix := 0 }
    let e2 : gd_Entry := { len := e.len, pfx := e.pfx, suffix := st.entry.suffix }
    { st with table := { nentries := st.table.nentries
                         entries := st.table.entries.set i e2 } }
  else st

/-- One iteration of the while(1) loop of read_image_data.  The
returned flag is true exactly on the stop code. -/
def decode_step (ctx : DecCtx) (st : DecSt) : DecSt × Bool :=
  let st := decode_dict ctx st
  if st.key = ctx.clear then (st, false)
  else if st.key = ctx.stop then (st, true)
  else (decode_body ctx st, false)

/-- Fueled unfolding of the decode loop, stopping at the stop code. -/
def decode_loop (ctx : DecCtx) : Nat → DecSt → Option DecSt
  | 0, _ => none
  | fuel + 1, st =>
    let r := decode_step ctx st
    if r.2 then some r.1 else decode_loop ctx fuel r.1

/-- Result of a completed read_image_data / read_image call.  code is
the C return value; ghost fields as in DecSt. -/
structure ImgRes where
  code : Int
  gif : gd_GIF
  frame : List Nat
  bs : BufState
  emits : List (Nat × Nat × Nat)
  trace : List (Nat × Nat)
  ok : Bool
deriving DecidableEq

/-- Initial loop state of read_image_data, after reading the minimum
code size, resetting the table, bumping key_size, and fetching the first
code with sub_len = shift = 0. -/
def decode_init (gif : gd_GIF) (frame : List Nat) (bs : BufState) : DecCtx × DecSt :=
  let mr := gif_buf_read1 bs
  let key_size0 := mr.1
  let clear := 1 <<< key_size0
  let table := reset_table gif.table key_size0
  let key_size := key_size0 + 1
  let kr := get_key key_size { sub_len := 0, shift := 0, byte := 0, bs := mr.2 }
  let ctx : DecCtx :=
    { clear := clear, stop := clear + 1, tindex := gif.gce.tindex
      pf := gif.processed_first_frame, interlace := false
      fx := gif.fx, fy := gif.fy, fw := gif.fw, fh := gif.fh, width := gif.width }
  let st : DecSt :=
    { bs := kr.2.bs, table := table, key_size := key_size
      init_key_size := key_size, sub_len := kr.2.sub_len, shift := kr.2.shift
      byte := kr.2.byte, table_is_full := false, ret := 0, str_len := 0
      entry := { len := 0, pfx := 0, suffix := 0 }, frm_off := 0, key := kr.1
      frame := frame, emits := [], trace := [(key_size, table.nentries)], ok := true }
  (ctx, st)

/-- Translation of read_image_data: set up the dictionary and bit
reader, run the decode loop to the stop code, then consume the trailing
sub-block length byte and mark processed_first_frame.  The source
function returns 0 on its single exit path. -/
def read_image_data (fuel : Nat) (gif : gd_GIF) (interlace : Bool)
    (frame : List Nat) (bs : BufState) : Option ImgRes :=
  let r := decode_init gif frame bs
  let ctx := { r.1 with interlace := interlace }
  match decode_loop ctx fuel r.2 with
  | none => none
  | some st =>
    let tr := gif_buf_read1 st.bs
    some { code := 0
           gif := { gif with table := st.table, processed_first_frame := true }
           frame := st.frame, bs := tr.2
           emits := st.emits, trace := st.trace, ok := st.ok }

/-- Translation of read_image: read the image descriptor into the
session, read a local color table when bit 7 of the packed byte is set
(the palette pointer then aims at lct, otherwise back at gct), and run
read_image_data with the interlace flag (bit 6). -/
def read_image (fuel : Nat) (gif : gd_GIF) (frame : List Nat) (bs : BufState) :
    Option ImgRes :=
  let fxr := gif_buf_read16 bs
  let fyr := gif_buf_read16 fxr.2
  let fwr := gif_buf_read16 fyr.2
  let fhr := gif_buf_read16 fwr.2
  let fr := gif_buf_read1 fhr.2
  let fisrz := fr.1
  let gif := { gif with fx := fxr.1, fy := fyr.1, fw := fwr.1, fh := fhr.1 }
  let interlace := fisrz &&& 0x40 ≠ 0
  if fisrz &&& 0x80 ≠ 0 then
    let pr := read_palette fr.2 (2 ^ ((fisrz &&& 0x07) + 1))
    read_image_data fuel { gif with lct := pr.1, paletteLocal := true } interlace frame pr.2
  else
    read_image_data fuel { gif with paletteLocal := false } interlace frame fr.2

/-- Translation of discard_sub_blocks: read a length byte, skip that
many bytes, until the length is zero. -/
def discard_sub_blocks : Nat → BufState → Option BufState
  | 0, _ => none
  | fuel + 1, bs =>
    let r := gif_buf_read1 bs
    let bs := gif_buf_seek r.2 r.1
    if r.1 = 0 then some bs else discard_sub_blocks fuel bs

/-- Translation of read_graphic_control_ext: skip the block size, parse
the packed byte into disposal/input/transparency, read the delay and
transparent index, and skip the terminator. -/
def read_graphic_control_ext (gif : gd_GIF) (bs : BufState) : gd_GIF × BufState :=
  let bs := gif_buf_seek bs 1
  let rr := gif_buf_read1 bs
  let rdit := rr.1
  let dr := gif_buf_read16 rr.2
  let tr := gif_buf_read1 dr.2
  let bs := gif_buf_seek tr.2 1
  ({ gif with gce := { delay := dr.1, tindex := tr.1
                       disposal := (rdit >>> 2) &&& 3
                       input := rdit &&& 2, transparency := rdit &&& 1 } }, bs)

/-- Byte values of the NETSCAPE application identifier. -/
def netscapeId : List Nat := [78, 69, 84, 83, 67, 65, 80, 69]

/-- Translation of read_application_ext: the plain_text, comment and
application hooks of the session are never installed by this firmware
(calloc leaves them null), so the non-NETSCAPE branch discards the
sub-blocks. -/
def read_application_ext (fuel : Nat) (gif : gd_GIF) (bs : BufState) :
    Option (gd_GIF × BufState) :=
  let bs := gif_buf_seek bs 1
  let idr := gif_buf_readN 8 bs
  let aur := gif_buf_readN 3 idr.2
  if idr.1 = netscapeId then
    let bs := gif_buf_seek aur.2 2
    let lr := gif_buf_read16 bs
    some ({ gif with loop_count := lr.1 }, gif_buf_seek lr.2 1)
  else
    match discard_sub_blocks fuel aur.2 with
    | none => none
    | some bs => some (gif, bs)

/-- Translation of read_plain_text_ext with the plain_text hook null:
skip the 13-byte text-grid descriptor and discard the sub-blocks. -/
def read_plain_text_ext (fuel : Nat) (bs : BufState) : Option BufState :=
  discard_sub_blocks fuel (gif_buf_seek bs 13)

/-- Translation of read_ext: dispatch on the label byte; unknown labels
are logged and ignored. -/
def read_ext (fuel : Nat) (gif : gd_GIF) (bs : BufState) : Option (gd_GIF × BufState) :=
  let lr := gif_buf_read1 bs
  if lr.1 = 0x01 then
    match read_plain_text_ext fuel lr.2 with
    | none => none
    | some bs => some (gif, bs)
  else if lr.1 = 0xF9 then
    some (read_graphic_control_ext gif lr.2)
  else if lr.1 = 0xFE then
    match discard_sub_blocks fuel lr.2 with
    | none => none
    | some bs => some (gif, bs)
  else if lr.1 = 0xFF then
    read_application_ext fuel gif lr.2
  else some (gif, lr.2)

/-- Result of a gd_get_frame call: the C return code (1 frame decoded,
0 trailer, -1 unrecognised block), the updated session, pixel buffer and
reader, plus the ghost observations of the frame decode (empty when no
image block was decoded). -/
structure FrameRes where
  code : Int
  gif : gd_GIF
  frame : List Nat
  bs : BufState
  emits : List (Nat × Nat × Nat)
  trace : List (Nat × Nat)
  ok : Bool
deriving DecidableEq

/-- Translation of gd_get_frame: read a separator byte (one stray 0x00
is re-read once), dispatch: 0x2C image (decode and return 1, or -1 when
read_image reports -1), 0x3B trailer (return 0), 0x21 extension
(process and loop), anything else returns -1.  The fuel bounds both the
separator loop and the nested sub-block loops. -/
def gd_get_frame : Nat → gd_GIF → List Nat → BufState → Option FrameRes
  | 0, _, _, _ => none
  | fuel + 1, gif, frame, bs =>
    let sr := gif_buf_read1 bs
    let sr := if sr.1 = 0 then gif_buf_read1 sr.2 else sr
    let sep := sr.1
    let bs := sr.2
    if sep = 0x2C then
      match read_image fuel gif frame bs with
      | none => none
      | some r =>
        if r.code = -1 then
          some { code := -1, gif := r.gif, frame := r.frame, bs := r.bs
                 emits := r.emits, trace := r.trace, ok := r.ok }
        else
          some { code := 1, gif := r.gif, frame := r.frame, bs := r.bs
                 emits := r.emits, trace := r.trace, ok := r.ok }
    else if sep = 0x3B then
      some { code := 0, gif := gif, frame := frame, bs := bs
             emits := [], trace := [], ok := true }
    else if sep = 0x21 then
      match read_ext fuel gif bs with
      | none => none
      | some r => gd_get_frame fuel r.1 frame r.2
    else
      some { code := -1, gif := gif, frame := frame, bs := bs
             emits := [], trace := [], ok := true }

/-- Byte values of the two signature halves checked by gd_open_gif. -/
def sigGIF : List Nat := [71, 73, 70]

/-- Bytes of the version half of the signature, 89a. -/
def sig89a : List Nat := [56, 57, 97]

/-- Translation of gd_open_gif: reset the reader, check the GIF and 89a
signature halves, read width, height and the packed byte (whose bit 7,
the global-color-table flag, must be set), read background index and
aspect byte, allocate the zeroed session (calloc), read the global
palette, and record the rewind anchor anim_start = file_pos.  NULL
returns are modelled by none. -/
def gd_open_gif (data : List Nat) : Option (gd_GIF × BufState) :=
  let bs := initBufState data
  let s1 := gif_buf_readN 3 bs
  if s1.1 ≠ sigGIF then none else
  let s2 := gif_buf_readN 3 s1.2
  if s2.1 ≠ sig89a then none else
  let wr := gif_buf_read16 s2.2
  let hr := gif_buf_read16 wr.2
  let fr := gif_buf_read1 hr.2
  let fdsz := fr.1
  if fdsz &&& 0x80 = 0 then none else
  let depth := ((fdsz >>> 4) &&& 7) + 1
  let gct_sz := 2 ^ ((fdsz &&& 0x07) + 1)
  let br := gif_buf_read1 fr.2
  let ar := gif_buf_read1 br.2
  let pr := read_palette ar.2 gct_sz
  some ({ anim_start := pr.2.file_pos
          width := wr.1, height := hr.1, depth := depth, loop_count := 0
          gce := { delay := 0, tindex := 0, disposal := 0, input := 0, transparency := 0 }
          paletteLocal := false
          lct := { len := 0, colors := [] }, gct := pr.1
          fx := 0, fy := 0, fw := 0, fh := 0
          bgindex := br.1
          table := new_table
          processed_first_frame := false }, pr.2)

/-- Translation of gd_rewind: seek the source to anim_start, restore
file_pos, and mark the buffer consumed. -/
def gd_rewind (gif : gd_GIF) (bs : BufState) : BufState :=
  { bs with fd := fileSeekSet bs.fd gif.anim_start
            file_pos := gif.anim_start
            gif_buf_idx := bs.gif_buf_last_idx }

/-- Consistency of a reader state with the byte source d: the buffered
window holds exactly the source bytes between file_pos and the file
cursor.  Every state reached from initBufState without reading past the
end of d satisfies Inv. -/
def Inv (d : List Nat) (s : BufState) : Prop :=
  s.gif_buf_idx ≤ s.gif_buf_last_idx ∧
  s.fd.data = d ∧
  s.fd.pos = s.file_pos + (s.gif_buf_last_idx - s.gif_buf_idx) ∧
  s.fd.pos ≤ d.length ∧
  ∀ j, j < s.gif_buf_last_idx - s.gif_buf_idx →
    s.gif_buf.getD (s.gif_buf_idx + j) 0 = d.getD (s.file_pos + j) 0

/-- Pure Nat restatement of interlaced_line_index.  The C version
computes (h-1)/8, (h-5)/8 and (h-3)/4 with truncating division; those
numerators stay above -8 (resp. -4), so truncation toward zero agrees
with Nat saturating subtraction for every h, as proved below. -/
def natILI (h y : Nat) : Nat :=
  let p1 := (h - 1) / 8 + 1
  if y < p1 then y * 8
  else
    let y2 := y - p1
    let p2 := (h - 5) / 8 + 1
    if y2 < p2 then y2 * 8 + 4
    else
      let y3 := y2 - p2
      let p3 := (h - 3) / 4 + 1
      if y3 < p3 then y3 * 4 + 2
      else (y3 - p3) * 2 + 1

/-- Inverse row map of the classic GIF four-pass interlace order,
written from the specification: a row r belongs to pass 1 (r = 0 mod 8),
pass 2 (r = 4 mod 8), pass 3 (r = 2 mod 4) or pass 4 (r odd), and its
linear index is its rank within its pass, offset by the sizes of the
earlier passes. -/
def iliInv (h r : Nat) : Nat :=
  let p1 := (h - 1) / 8 + 1
  let p2 := (h - 5) / 8 + 1
  let p3 := (h - 3) / 4 + 1
  if r % 8 = 0 then r / 8
  else if r % 8 = 4 then p1 + r / 8
  else if r % 4 = 2 then p1 + p2 + r / 4
  else p1 + p2 + p3 + r / 2

/-- Agreement of two decode contexts on everything but the first-frame
flag: same codes, transparent index, interlace mode and placement; pf
may differ (it is the only context field that depends on decode
history). -/
def CtxSim (c1 c2 : DecCtx) : Prop :=
  c1.clear = c2.clear ∧ c1.stop = c2.stop ∧ c1.tindex = c2.tindex ∧
  c1.interlace = c2.interlace ∧ c1.fx = c2.fx ∧ c1.fy = c2.fy ∧
  c1.fw = c2.fw ∧ c1.fh = c2.fh ∧ c1.width = c2.width

/-- Last emission aimed at destination byte q, in write order. -/
def lastEmitAt (q : Nat) (E : List (Nat × Nat × Nat)) : Option (Nat × Nat × Nat) :=
  E.reverse.find? (fun e => e.2.1 == q)

/-- Agreement of two dictionary tables on every live data entry: same
count, same arena size, and equal entries below the count except at the
clear and stop slots, which reset_table leaves stale and which no
conforming lookup ever reads. -/
def TableSim (clear : Nat) (t1 t2 : gd_Table) : Prop :=
  t1.nentries = t2.nentries ∧
  t1.entries.length = t2.entries.length ∧
  ∀ k, k < t1.nentries → k ≠ clear → k ≠ clear + 1 →
    t1.entries.getD k { len := 0, pfx := 0, suffix := 0 } =
    t2.entries.getD k { len := 0, pfx := 0, suffix := 0 }

/-- Observational equivalence of two reader states over the same byte
source: both consistent and at the same absolute position.  Reads from
related states return the same bytes (while within the source). -/
def Sim (d : List Nat) (s t : BufState) : Prop :=
  Inv d s ∧ Inv d t ∧ s.file_pos = t.file_pos

/-- Relation between two decode-loop states that differ only in the
pixel buffer, the stale table slots and the buffered-window phase: all
scalar fields and ghosts agree, tables agree on live entries, readers
are observationally equal. -/
def DSim (d : List Nat) (clear : Nat) (s t : DecSt) : Prop :=
  Sim d s.bs t.bs ∧ TableSim clear s.table t.table ∧
  s.key_size = t.key_size ∧ s.init_key_size = t.init_key_size ∧
  s.sub_len = t.sub_len ∧ s.shift = t.shift ∧ s.byte = t.byte ∧
  s.table_is_full = t.table_is_full ∧ s.ret = t.ret ∧
  s.str_len = t.str_len ∧ s.entry = t.entry ∧ s.frm_off = t.frm_off ∧
  s.key = t.key ∧ s.emits = t.emits ∧ s.ok = t.ok

/-- Invariant of the dictionary bookkeeping used by the table-growth
claim: the key size byte was at most 11 (so the root region fits the
arena), the count never exceeds 4096, an unfrozen table has room for
one more entry, and a frozen table carries no pending width growth. -/
def Inv6 (st : DecSt) : Prop :=
  st.init_key_size ≤ 12 ∧
  st.table.nentries ≤ 4096 ∧
  (st.table_is_full = false → st.table.nentries ≤ 4095) ∧
  (st.table_is_full = true → st.ret = 0)

/-- Logical screen header of the concrete test streams: GIF89a, the
given canvas size, a global color table flag with size bits 0 (two
entries), and the palette black then white. -/
def gifHeader (w h : Nat) : List Nat :=
  [71, 73, 70, 56, 57, 97, w, 0, h, 0, 128, 0, 0, 0, 0, 0, 255, 255, 255]

/-- Two-frame stream refuting the transparency-flag reading: a 2 wide,
1 tall canvas, frame 1 emitting indices 1 0, then a graphic control
extension with transparency flag 0 and transparent index 1, then frame
2 emitting indices 0 1 (LZW codes clear, 0, 1, stop at width 3). -/
def ce1data : List Nat :=
  gifHeader 2 1
  ++ [44, 0, 0, 0, 0, 2, 0, 1, 0, 0, 2, 2, 12, 10, 0]
  ++ [33, 249, 4, 0, 0, 0, 1, 0]
  ++ [44, 0, 0, 0, 0, 2, 0, 1, 0, 0, 2, 2, 68, 10, 0]
  ++ [59]

/-- Single-frame stream (no graphic control extension) whose frame
emits indices 1 0; used for the rewind claim. -/
def ce2data : List Nat :=
  gifHeader 2 1 ++ [44, 0, 0, 0, 0, 2, 0, 1, 0, 0, 2, 2, 12, 10, 0] ++ [59]

/-- Stream whose image block sends, after a mid-stream clear code, the
code 6 while only entries 0..5 are live (codes clear 1 2 clear 6 stop):
a corrupt bitstream referencing a dead table entry. -/
def ce4data : List Nat :=
  gifHeader 2 2 ++ [44, 0, 0, 0, 0, 2, 0, 2, 0, 0, 2, 3, 140, 232, 2, 0] ++ [59]

/-- Stream sending codes clear 1 2 clear 1 stop: the add after code 2
grows the table to 8 entries (crossing a power of two) and the pending
width increase survives the immediately following clear code. -/
def ce6data : List Nat :=
  gifHeader 2 2 ++ [44, 0, 0, 0, 0, 2, 0, 2, 0, 0, 2, 3, 140, 152, 2, 0] ++ [59]

/-- Stream whose 2 by 1 frame rectangle receives three emitted pixels
(codes clear 1 1 0 stop): one more than the rectangle holds, writing
below it into row 1 of the 2 by 2 canvas. -/
def ce7data : List Nat :=
  gifHeader 2 2 ++ [44, 0, 0, 0, 0, 2, 0, 1, 0, 0, 2, 2, 76, 80, 0] ++ [59]

/-- First getFrame call of the two-frame stream. -/
def ce1r1 : Option FrameRes :=
  (gd_open_gif ce1data).bind fun r => gd_get_frame 64 r.1 [7, 7] r.2

/-- Second getFrame call of the two-frame stream. -/
def ce1r2 : Option FrameRes :=
  ce1r1.bind fun r => gd_get_frame 64 r.gif r.frame r.bs

/-- The getFrame call after open on the single-frame stream. -/
def ce2r1 : Option FrameRes :=
  (gd_open_gif ce2data).bind fun r => gd_get_frame 64 r.1 [7, 7] r.2

/-- The getFrame call after rewind on the single-frame stream, on a
fresh buffer holding the same initial bytes as the first call's. -/
def ce2r2 : Option FrameRes :=
  ce2r1.bind fun r1 => gd_get_frame 64 r1.gif [7, 7] (gd_rewind r1.gif r1.bs)

/-- The getFrame call on the dead-entry stream. -/
def ce4r : Option FrameRes :=
  (gd_open_gif ce4data).bind fun r => gd_get_frame 64 r.1 [7, 7, 7, 7] r.2

/-- The getFrame call on the pending-width stream. -/
def ce6r : Option FrameRes :=
  (gd_open_gif ce6data).bind fun r => gd_get_frame 64 r.1 [7, 7, 7, 7] r.2

/-- The getFrame call on the overflowing-rectangle stream. -/
def ce7r : Option FrameRes :=
  (gd_open_gif ce7data).bind fun r => gd_get_frame 64 r.1 [7, 7, 7, 7] r.2

/-- Byte source of the skip counterexample. -/
def c3data : List Nat := [0, 1, 2, 3, 4, 5, 6, 7, 8, 6, 10, 11, 12]

/-- Reader state over c3data with one unread buffered byte: 9 bytes
consumed (file_pos = 9), window holding source bytes 9 (value 6) at
buffer index 1, file cursor at 10. -/
def c3state : BufState :=
  { gif_buf := [5, 6] ++ List.replicate 1022 0
    gif_buf_last_idx := 2
    gif_buf_idx := 1
    file_pos := 9
    fd := { data := c3data, pos := 10 } }

instance : Inhabited GFile := ⟨{ data := [], pos := 0 }⟩

instance : Inhabited BufState :=
  ⟨{ gif_buf := [], gif_buf_last_idx := 0, gif_buf_idx := 0, file_pos := 0
     fd := { data := [], pos := 0 } }⟩

instance : Inhabited gd_Entry := ⟨{ len := 0, pfx := 0, suffix := 0 }⟩

instance : Inhabited gd_Table := ⟨{ nentries := 0, entries := [] }⟩

instance : Inhabited gd_Palette := ⟨{ len := 0, colors := [] }⟩

instance : Inhabited gd_GCE :=
  ⟨{ delay := 0, tindex := 0, disposal := 0, input := 0, transparency := 0 }⟩

instance : Inhabited gd_GIF :=
  ⟨{ anim_start := 0, width := 0, height := 0, depth := 0, loop_count := 0
     gce := default, paletteLocal := false, lct := default, gct := default
     fx := 0, fy := 0, fw := 0, fh := 0, bgindex := 0
     table := default, processed_first_frame := false }⟩

instance : Inhabited ImgRes :=
  ⟨{ code := 0, gif := default, frame := [], bs := default
     emits := [], trace := [], ok := true }⟩

instance : Inhabited FrameRes :=
  ⟨{ code := 0, gif := default, frame := [], bs := default
     emits := [], trace := [], ok := true }⟩

/-- Bare LZW image data of a 2 by 1 frame emitting indices 1 0:
minimum code size 2, one sub-block holding codes clear 1 0 stop at
width 3, then the terminator. -/
def lzwOnly : List Nat := [2, 2, 12, 10, 0]

/-- Session for direct read_image_data witnesses: 2 by 1 canvas, frame
rectangle 2 by 1 at the origin, zeroed graphic control state, fresh
table, first frame not yet processed. -/
def c1wit_gif : gd_GIF :=
  { anim_start := 0, width := 2, height := 1, depth := 1, loop_count := 0
    gce := { delay := 0, tindex := 0, disposal := 0, input := 0, transparency := 0 }
    paletteLocal := false
    lct := { len := 0, colors := [] }, gct := { len := 2, colors := [0, 65535] }
    fx := 0, fy := 0, fw := 2, fh := 1, bgindex := 0
    table := new_table, processed_first_frame := false }

/-- Reader positioned at the start of the bare LZW data. -/
def c1wit_bs : BufState := initBufState lzwOnly

/-- Result of decoding the bare LZW data on a first frame. -/
def c1wit_res : ImgRes := (read_image_data 64 c1wit_gif false [7, 7] c1wit_bs).getD default

/-- Same session with processed_first_frame already set, as after a
rewind: the default transparent index 0 now suppresses index-0 pixels. -/
def c10wit_gif : gd_GIF := { c1wit_gif with processed_first_frame := true }

/-- Result of decoding the bare LZW data on a non-first frame. -/
def c10wit_res : ImgRes :=
  (read_image_data 64 c10wit_gif false [7, 7] c1wit_bs).getD default

/-- The opened session and reader of the single-frame stream. -/
def ce2open : gd_GIF × BufState := (gd_open_gif ce2data).getD default

instance : Inhabited DecSt :=
  ⟨{ bs := default, table := default, key_size := 0, init_key_size := 0
     sub_len := 0, shift := 0, byte := 0, table_is_full := false, ret := 0
     str_len := 0, entry := default, frm_off := 0, key := 0, frame := []
     emits := [], trace := [], ok := true }⟩

/-- Context of the witness decode of the bare LZW data. -/
def c6wit_ctx : DecCtx :=
  { (decode_init c1wit_gif [7, 7] c1wit_bs).1 with interlace := false }

/-- Initial loop state of the witness decode. -/
def c6wit_st0 : DecSt := (decode_init c1wit_gif [7, 7] c1wit_bs).2

/-- Final loop state of the witness decode. -/
def c6wit_st2 : DecSt := (decode_loop c6wit_ctx 64 c6wit_st0).getD default

/-- A stream whose first block byte is not a separator. -/
def c4bad_data : List Nat := [65]

/-- The getFrame call on the bad-separator stream. -/
def c4bad_res : FrameRes :=
  (gd_get_frame 4 c1wit_gif [7, 7] (initBufState c4bad_data)).getD default

/-- First getFrame result on the single-frame stream, taken from the
session opened on ce2data (used to instantiate the rewind claim). -/
def c2wit_r1 : FrameRes := (gd_get_frame 64 ce2open.1 [7, 7] ce2open.2).getD default

theorem read1_fp (s : BufState) : (gif_buf_read1 s).2.file_pos = s.file_pos + 1 := by
  unfold gif_buf_read1
  by_cases h : s.gif_buf_idx = s.gif_buf_last_idx <;> simp [h]

theorem read1_data (s : BufState) : (gif_buf_read1 s).2.fd.data = s.fd.data := by
  unfold gif_buf_read1 fileRead
  by_cases h : s.gif_buf_idx = s.gif_buf_last_idx <;> simp [h]

theorem getD_append_left {l1 l2 : List Nat} {j d : Nat} (h : j < l1.length) :
    (l1 ++ l2).getD j d = l1.getD j d := by
  simp [List.getD_eq_getElem?_getD, List.getElem?_append, h]

theorem read1_spec (d : List Nat) (s : BufState) (hI : Inv d s)
    (hlt : s.file_pos < d.length) :
    (gif_buf_read1 s).1 = d.getD s.file_pos 0 ∧ Inv d (gif_buf_read1 s).2 := by
  obtain ⟨h1, h2, h3, h4, h5⟩ := hI
  by_cases h : s.gif_buf_idx = s.gif_buf_last_idx
  · have hpos : s.fd.pos = s.file_pos := by omega
    set c := (d.drop s.file_pos).take GIF_BUF_SIZE with hc
    have hclen : c.length = min GIF_BUF_SIZE (d.length - s.file_pos) := by
      simp [hc]
    have hc1 : 1 ≤ c.length := by
      have hg : 0 < GIF_BUF_SIZE := by norm_num [GIF_BUF_SIZE]
      omega
    have hcget : ∀ j, j < c.length → c.getD j 0 = d.getD (s.file_pos + j) 0 := by
      intro j hj
      have hj2 : j < GIF_BUF_SIZE := by omega
      simp [hc, List.getD_eq_getElem?_getD, List.getElem?_take, hj2, List.getElem?_drop]
    have hred : gif_buf_read1 s =
        ((c ++ s.gif_buf.drop c.length).getD 0 0,
         { gif_buf := c ++ s.gif_buf.drop c.length
           gif_buf_last_idx := c.length
           gif_buf_idx := 1
           file_pos := s.file_pos + 1
           fd := { data := d, pos := s.fd.pos + c.length } }) := by
      simp [gif_buf_read1, fileRead, h, h2, hpos, hc]
    rw [hred]
    refine ⟨?_, ?_, rfl, ?_, ?_, ?_⟩
    · rw [getD_append_left (by omega)]
      simpa using hcget 0 (by omega)
    · simpa using hc1
    · simp; omega
    · simp; omega
    · intro j hj
      simp only at hj ⊢
      have hj2 : 1 + j < c.length := by omega
      rw [getD_append_left hj2, hcget (1 + j) hj2]
      ring_nf
  · have hlt2 : s.gif_buf_idx < s.gif_buf_last_idx := by omega
    have hred : gif_buf_read1 s =
        (s.gif_buf.getD s.gif_buf_idx 0,
         { s with file_pos := s.file_pos + 1, gif_buf_idx := s.gif_buf_idx + 1 }) := by
      simp [gif_buf_read1, h]
    rw [hred]
    refine ⟨?_, ?_, h2, ?_, ?_, ?_⟩
    · simpa using h5 0 (by omega)
    · simp; omega
    · simp; omega
    · simpa using h4
    · intro j hj
      simp only at hj ⊢
      have := h5 (j + 1) (by omega)
      rw [show s.gif_buf_idx + 1 + j = s.gif_buf_idx + (j + 1) by omega,
          show s.file_pos + 1 + j = s.file_pos + (j + 1) by omega]
      exact this

theorem readN_fp (n : Nat) (s : BufState) :
    (gif_buf_readN n s).2.file_pos = s.file_pos + n := by
  induction n generalizing s with
  | zero => simp [gif_buf_readN]
  | succ n ih => simp [gif_buf_readN, ih, read1_fp]; omega

theorem readN_spec (n : Nat) (d : List Nat) (s : BufState) (hI : Inv d s)
    (hle : s.file_pos + n ≤ d.length) :
    (gif_buf_readN n s).1 = (d.drop s.file_pos).take n ∧ Inv d (gif_buf_readN n s).2 := by
  induction n generalizing s with
  | zero => simpa [gif_buf_readN] using hI
  | succ n ih =>
    obtain ⟨hv, hI2⟩ := read1_spec d s hI (by omega)
    have hfp := read1_fp s
    obtain ⟨hv2, hI3⟩ := ih (gif_buf_read1 s).2 hI2 (by omega)
    have hd : d.drop s.file_pos = d.getD s.file_pos 0 :: d.drop (s.file_pos + 1) := by
      rw [List.drop_eq_getElem_cons (by omega : s.file_pos < d.length)]
      congr 1
      simp [List.getD_eq_getElem?_getD, List.getElem?_eq_getElem,
        (by omega : s.file_pos < d.length)]
    refine ⟨?_, hI3⟩
    simp only [gif_buf_readN]
    rw [hd]
    simp [hv, hv2, hfp]

theorem read16_fp (s : BufState) :
    (gif_buf_read16 s).2.file_pos = s.file_pos + 2 := by
  simp [gif_buf_read16, read1_fp]

theorem read16_spec (d : List Nat) (s : BufState) (hI : Inv d s)
    (hle : s.file_pos + 2 ≤ d.length) :
    (gif_buf_read16 s).1 = d.getD s.file_pos 0 + (d.getD (s.file_pos + 1) 0) <<< 8 ∧
    Inv d (gif_buf_read16 s).2 := by
  obtain ⟨hv1, hI2⟩ := read1_spec d s hI (by omega)
  have hfp := read1_fp s
  obtain ⟨hv2, hI3⟩ := read1_spec d _ hI2 (by omega)
  refine ⟨?_, hI3⟩
  simp [gif_buf_read16, hv1, hv2, hfp]

theorem read_palette_go_fp (n : Nat) (s : BufState) :
    (read_palette_go n s).2.file_pos = s.file_pos + 3 * n := by
  induction n generalizing s with
  | zero => simp [read_palette_go]
  | succ n ih => simp [read_palette_go, ih, read1_fp]; omega

theorem read_palette_go_spec (n : Nat) (d : List Nat) (s : BufState) (hI : Inv d s)
    (hle : s.file_pos + 3 * n ≤ d.length) :
    (∀ i, i < n → (read_palette_go n s).1.getD i 0 =
      gifColor565 (d.getD (s.file_pos + 3 * i) 0) (d.getD (s.file_pos + 3 * i + 1) 0)
        (d.getD (s.file_pos + 3 * i + 2) 0)) ∧
    Inv d (read_palette_go n s).2 := by
  induction n generalizing s with
  | zero => simpa [read_palette_go] using hI
  | succ n ih =>
    obtain ⟨hv1, hI1⟩ := read1_spec d s hI (by omega)
    have h1 := read1_fp s
    obtain ⟨hv2, hI2⟩ := read1_spec d _ hI1 (by omega)
    have h2 := read1_fp (gif_buf_read1 s).2
    obtain ⟨hv3, hI3⟩ := read1_spec d _ hI2 (by omega)
    have h3 := read1_fp (gif_buf_read1 (gif_buf_read1 s).2).2
    obtain ⟨ihv, ihI⟩ := ih _ hI3 (by omega)
    constructor
    · intro i hi
      match i with
      | 0 =>
        simp [read_palette_go, hv1, hv2, hv3, h1, h2]
      | i + 1 =>
        have := ihv i (by omega)
        simp only [read_palette_go, List.getD_cons_succ] at this ⊢
        rw [this, h3, h2, h1]
        ring_nf
    · simpa [read_palette_go] using ihI



theorem inv_init (d : List Nat) : Inv d (initBufState d) := by
  refine ⟨le_refl _, rfl, by simp [initBufState], by simp [initBufState], ?_⟩
  intro j hj
  simp [initBufState] at hj

theorem take6_split (d : List Nat) :
    d.take 6 = sigGIF ++ sig89a ↔
      (d.take 3 = sigGIF ∧ (d.drop 3).take 3 = sig89a) := by
  constructor
  · intro he
    rw [show (6 : Nat) = 3 + 3 from rfl, List.take_add] at he
    have h6 : (d.take 3).length + ((d.drop 3).take 3).length = 6 := by
      have := congrArg List.length he
      simpa [sigGIF, sig89a] using this
    have hlen : (d.take 3).length = sigGIF.length := by
      simp only [List.length_take, sigGIF, List.length_cons, List.length_nil]
      simp only [List.length_take, List.length_drop] at h6
      omega
    exact List.append_inj he hlen
  · intro h
    rw [show (6 : Nat) = 3 + 3 from rfl, List.take_add, h.1, h.2]

theorem gd_open_gif_isSome_iff (d : List Nat) (h11 : 11 ≤ d.length) :
    (gd_open_gif d).isSome ↔
      (d.take 6 = sigGIF ++ sig89a ∧ d.getD 10 0 &&& 128 ≠ 0) := by
  have hI0 := inv_init d
  have e0 : (initBufState d).file_pos = 0 := rfl
  obtain ⟨e1, hI1⟩ := readN_spec 3 d _ hI0 (by rw [e0]; omega)
  have f1 : (gif_buf_readN 3 (initBufState d)).2.file_pos = 3 := by
    rw [readN_fp, e0]
  obtain ⟨e2, hI2⟩ := readN_spec 3 d _ hI1 (by rw [f1]; omega)
  have f2 : (gif_buf_readN 3 (gif_buf_readN 3 (initBufState d)).2).2.file_pos = 6 := by
    rw [readN_fp, f1]
  obtain ⟨e3, hI3⟩ := read16_spec d _ hI2 (by rw [f2]; omega)
  have f3 := read16_fp (gif_buf_readN 3 (gif_buf_readN 3 (initBufState d)).2).2
  rw [f2] at f3
  obtain ⟨e4, hI4⟩ := read16_spec d _ hI3 (by rw [f3]; omega)
  have f4 := read16_fp (gif_buf_read16 (gif_buf_readN 3 (gif_buf_readN 3 (initBufState d)).2).2).2
  rw [f3] at f4
  obtain ⟨e5, hI5⟩ := read1_spec d _ hI4 (by rw [f4]; omega)
  rw [f4] at e5
  rw [show (6 + 2 + 2 : Nat) = 10 from rfl] at e5
  rw [e0] at e1
  rw [List.drop_zero] at e1
  rw [f1] at e2
  rw [take6_split]
  simp only [gd_open_gif]
  rw [e1, e2, e5]
  by_cases hA : d.take 3 = sigGIF
  · by_cases hB : (d.drop 3).take 3 = sig89a
    · by_cases hC : d.getD 10 0 &&& 128 = 0
      · rw [if_neg (by simpa using hA), if_neg (by simpa using hB), if_pos hC]
        simp only [Option.isSome_none, Bool.false_eq_true, false_iff, not_and, ne_eq,
          Decidable.not_not]
        exact fun _ => hC
      · rw [if_neg (by simpa using hA), if_neg (by simpa using hB), if_neg hC]
        simp only [Option.isSome_some, true_iff, ne_eq]
        exact ⟨⟨hA, hB⟩, hC⟩
    · rw [if_neg (by simpa using hA), if_pos hB]
      simp [hB]
  · rw [if_pos hA]
    simp [hA]

theorem tdiv_c1 (h : Nat) : ((h : Int) - 1).tdiv 8 = (((h - 1) / 8 : Nat) : Int) := by
  rcases le_or_lt 1 h with h1 | h1
  · rw [show ((h : Int) - 1) = (((h - 1 : Nat)) : Int) by omega,
        show (8 : Int) = ((8 : Nat) : Int) from rfl, ← Int.ofNat_tdiv]
  · interval_cases h
    rfl

theorem tdiv_c2 (h : Nat) : ((h : Int) - 5).tdiv 8 = (((h - 5) / 8 : Nat) : Int) := by
  rcases le_or_lt 5 h with h5 | h5
  · rw [show ((h : Int) - 5) = (((h - 5 : Nat)) : Int) by omega,
        show (8 : Int) = ((8 : Nat) : Int) from rfl, ← Int.ofNat_tdiv]
  · interval_cases h <;> rfl

theorem tdiv_c3 (h : Nat) : ((h : Int) - 3).tdiv 4 = (((h - 3) / 4 : Nat) : Int) := by
  rcases le_or_lt 3 h with h3 | h3
  · rw [show ((h : Int) - 3) = (((h - 3 : Nat)) : Int) by omega,
        show (4 : Int) = ((4 : Nat) : Int) from rfl, ← Int.ofNat_tdiv]
  · interval_cases h <;> rfl

theorem iliNat_eq_natILI (h y : Nat) : iliNat h y = natILI h y := by
  unfold iliNat interlaced_line_index natILI
  simp only [tdiv_c1 h, tdiv_c2 h, tdiv_c3 h]
  split_ifs <;> omega


theorem natILI_case1 (h y : Nat) (hc : y < (h - 1) / 8 + 1) : natILI h y = y * 8 := by
  simp only [natILI]
  rw [if_pos hc]

theorem natILI_case2 (h y : Nat) (h1 : ¬ y < (h - 1) / 8 + 1)
    (h2 : y - ((h - 1) / 8 + 1) < (h - 5) / 8 + 1) :
    natILI h y = (y - ((h - 1) / 8 + 1)) * 8 + 4 := by
  simp only [natILI]
  rw [if_neg h1, if_pos h2]

theorem natILI_case3 (h y : Nat) (h1 : ¬ y < (h - 1) / 8 + 1)
    (h2 : ¬ y - ((h - 1) / 8 + 1) < (h - 5) / 8 + 1)
    (h3 : y - ((h - 1) / 8 + 1) - ((h - 5) / 8 + 1) < (h - 3) / 4 + 1) :
    natILI h y = (y - ((h - 1) / 8 + 1) - ((h - 5) / 8 + 1)) * 4 + 2 := by
  simp only [natILI]
  rw [if_neg h1, if_neg h2, if_pos h3]

theorem natILI_case4 (h y : Nat) (h1 : ¬ y < (h - 1) / 8 + 1)
    (h2 : ¬ y - ((h - 1) / 8 + 1) < (h - 5) / 8 + 1)
    (h3 : ¬ y - ((h - 1) / 8 + 1) - ((h - 5) / 8 + 1) < (h - 3) / 4 + 1) :
    natILI h y =
      (y - ((h - 1) / 8 + 1) - ((h - 5) / 8 + 1) - ((h - 3) / 4 + 1)) * 2 + 1 := by
  simp only [natILI]
  rw [if_neg h1, if_neg h2, if_neg h3]

theorem iliInv_case1 (h r : Nat) (h0 : r % 8 = 0) : iliInv h r = r / 8 := by
  simp only [iliInv]
  rw [if_pos h0]

theorem iliInv_case2 (h r : Nat) (h0 : ¬ r % 8 = 0) (h4 : r % 8 = 4) :
    iliInv h r = (h - 1) / 8 + 1 + r / 8 := by
  simp only [iliInv]
  rw [if_neg h0, if_pos h4]

theorem iliInv_case3 (h r : Nat) (h0 : ¬ r % 8 = 0) (h4 : ¬ r % 8 = 4) (h2 : r % 4 = 2) :
    iliInv h r = ((h - 1) / 8 + 1) + ((h - 5) / 8 + 1) + r / 4 := by
  simp only [iliInv]
  rw [if_neg h0, if_neg h4, if_pos h2]

theorem iliInv_case4 (h r : Nat) (h0 : ¬ r % 8 = 0) (h4 : ¬ r % 8 = 4) (h2 : ¬ r % 4 = 2) :
    iliInv h r = ((h - 1) / 8 + 1) + ((h - 5) / 8 + 1) + ((h - 3) / 4 + 1) + r / 2 := by
  simp only [iliInv]
  rw [if_neg h0, if_neg h4, if_neg h2]

theorem natILI_lt (h y : Nat) (hh : h = 1 ∨ 5 ≤ h) (hy : y < h) : natILI h y < h := by
  by_cases c1 : y < (h - 1) / 8 + 1
  · rw [natILI_case1 h y c1]; omega
  · by_cases c2 : y - ((h - 1) / 8 + 1) < (h - 5) / 8 + 1
    · rw [natILI_case2 h y c1 c2]; omega
    · by_cases c3 : y - ((h - 1) / 8 + 1) - ((h - 5) / 8 + 1) < (h - 3) / 4 + 1
      · rw [natILI_case3 h y c1 c2 c3]; omega
      · rw [natILI_case4 h y c1 c2 c3]; omega

theorem iliInv_natILI (h y : Nat) (hh : h = 1 ∨ 5 ≤ h) (hy : y < h) :
    iliInv h (natILI h y) = y := by
  by_cases c1 : y < (h - 1) / 8 + 1
  · rw [natILI_case1 h y c1, iliInv_case1 _ _ (by omega)]
    omega
  · by_cases c2 : y - ((h - 1) / 8 + 1) < (h - 5) / 8 + 1
    · rw [natILI_case2 h y c1 c2, iliInv_case2 _ _ (by omega) (by omega)]
      omega
    · by_cases c3 : y - ((h - 1) / 8 + 1) - ((h - 5) / 8 + 1) < (h - 3) / 4 + 1
      · rw [natILI_case3 h y c1 c2 c3, iliInv_case3 _ _ (by omega) (by omega) (by omega)]
        omega
      · rw [natILI_case4 h y c1 c2 c3, iliInv_case4 _ _ (by omega) (by omega) (by omega)]
        omega

theorem natILI_iliInv (h r : Nat) (hh : h = 1 ∨ 5 ≤ h) (hr : r < h) :
    natILI h (iliInv h r) = r ∧ iliInv h r < h := by
  by_cases m0 : r % 8 = 0
  · rw [iliInv_case1 h r m0]
    refine ⟨?_, by omega⟩
    rw [natILI_case1 h _ (by omega)]
    omega
  · by_cases m4 : r % 8 = 4
    · rw [iliInv_case2 h r m0 m4]
      refine ⟨?_, by omega⟩
      rw [natILI_case2 h _ (by omega) (by omega)]
      omega
    · by_cases m2 : r % 4 = 2
      · rw [iliInv_case3 h r m0 m4 m2]
        refine ⟨?_, by omega⟩
        rw [natILI_case3 h _ (by omega) (by omega) (by omega)]
        omega
      · rw [iliInv_case4 h r m0 m4 m2]
        refine ⟨?_, by omega⟩
        rw [natILI_case4 h _ (by omega) (by omega) (by omega)]
        omega

theorem getD_set_ne {l : List Nat} {i j a d : Nat} (h : i ≠ j) :
    (l.set i a).getD j d = l.getD j d := by
  simp [List.getD_eq_getElem?_getD, List.getElem?_set_ne h]

theorem getD_set_self {l : List Nat} {q a d : Nat} (h : q < l.length) :
    (l.set q a).getD q d = a := by
  simp [List.getD_eq_getElem?_getD, List.getElem?_set_self, h]

theorem condWrite_length (pf : Bool) (t : Nat) (fr : List Nat) (e : Nat × Nat × Nat) :
    (condWrite pf t fr e).length = fr.length := by
  unfold condWrite
  split_ifs <;> simp

theorem emit_walk_frame (ctx : DecCtx) (t : gd_Table) :
    ∀ fuel entry frm_off frame,
      (emit_walk ctx t fuel entry frm_off frame).frame =
        (emit_walk ctx t fuel entry frm_off frame).emits.foldl
          (condWrite ctx.pf ctx.tindex) frame := by
  intro fuel
  induction fuel with
  | zero => intro entry frm_off frame; rfl
  | succ fuel ih =>
    intro entry frm_off frame
    simp only [emit_walk]
    split_ifs with hp
    · rfl
    · simp only [List.foldl_cons]
      exact ih _ _ _

theorem emit_walk_dest (ctx : DecCtx) (t : gd_Table) :
    ∀ fuel entry frm_off frame e,
      e ∈ (emit_walk ctx t fuel entry frm_off frame).emits →
        e.2.1 = emitDest ctx e.1 := by
  intro fuel
  induction fuel with
  | zero => intro entry frm_off frame e he; simp [emit_walk] at he
  | succ fuel ih =>
    intro entry frm_off frame e he
    simp only [emit_walk] at he
    split_ifs at he with hp
    · simp at he
      rw [he]
    · simp at he
      rcases he with he | he
      · rw [he]
      · exact ih _ _ _ _ he

theorem decode_dict_frame (ctx : DecCtx) (st : DecSt) :
    (decode_dict ctx st).frame = st.frame ∧ (decode_dict ctx st).emits = st.emits := by
  simp only [decode_dict]
  split_ifs <;> exact ⟨rfl, rfl⟩

theorem decode_body_frame (ctx : DecCtx) (st : DecSt) :
    (decode_body ctx st).frame =
      (emit_walk ctx st.table WALK_FUEL
        (st.table.entries.getD st.key { len := 0, pfx := 0, suffix := 0 })
        st.frm_off st.frame).frame ∧
    (decode_body ctx st).emits = st.emits ++
      (emit_walk ctx st.table WALK_FUEL
        (st.table.entries.getD st.key { len := 0, pfx := 0, suffix := 0 })
        st.frm_off st.frame).emits := by
  simp only [decode_body]
  split_ifs <;> exact ⟨rfl, rfl⟩

theorem decode_step_preserves_frame (ctx : DecCtx) (st : DecSt) (frame0 : List Nat)
    (h : st.frame = st.emits.foldl (condWrite ctx.pf ctx.tindex) frame0) :
    ((decode_step ctx st).1).frame =
      ((decode_step ctx st).1).emits.foldl (condWrite ctx.pf ctx.tindex) frame0 := by
  simp only [decode_step]
  obtain ⟨hdf, hde⟩ := decode_dict_frame ctx st
  split_ifs
  · simpa [hdf, hde] using h
  · simpa [hdf, hde] using h
  · obtain ⟨hbf, hbe⟩ := decode_body_frame ctx (decode_dict ctx st)
    simp only [hbf, hbe, hdf, hde, List.foldl_append]
    rw [emit_walk_frame, h]

theorem decode_loop_frame (ctx : DecCtx) :
    ∀ fuel st st2 frame0, decode_loop ctx fuel st = some st2 →
      st.frame = st.emits.foldl (condWrite ctx.pf ctx.tindex) frame0 →
      st2.frame = st2.emits.foldl (condWrite ctx.pf ctx.tindex) frame0 := by
  intro fuel
  induction fuel with
  | zero => intro st st2 frame0 h; simp [decode_loop] at h
  | succ fuel ih =>
    intro st st2 frame0 h hP
    simp only [decode_loop] at h
    split_ifs at h with hdone
    · cases h
      exact decode_step_preserves_frame ctx st frame0 hP
    · exact ih _ _ _ h (decode_step_preserves_frame ctx st frame0 hP)

theorem decode_init_pf (gif : gd_GIF) (frame : List Nat) (bs : BufState) :
    (decode_init gif frame bs).1.pf = gif.processed_first_frame ∧
    (decode_init gif frame bs).1.tindex = gif.gce.tindex ∧
    (decode_init gif frame bs).2.frame = frame ∧
    (decode_init gif frame bs).2.emits = [] := ⟨rfl, rfl, rfl, rfl⟩

theorem read_image_data_frame (fuel : Nat) (gif : gd_GIF) (interlace : Bool)
    (frame : List Nat) (bs : BufState) (r : ImgRes)
    (h : read_image_data fuel gif interlace frame bs = some r) :
    r.frame = r.emits.foldl (condWrite gif.processed_first_frame gif.gce.tindex) frame := by
  simp only [read_image_data] at h
  split at h
  · cases h
  · rename_i st hl
    have hfr := decode_loop_frame _ _ _ _ frame hl rfl
    cases h
    have h1 := (decode_init_pf gif frame bs).1
    have h2 := (decode_init_pf gif frame bs).2.1
    simpa [h1, h2] using hfr

theorem decode_step_preserves_dest (ctx : DecCtx) (st : DecSt)
    (h : ∀ e ∈ st.emits, e.2.1 = emitDest ctx e.1) :
    ∀ e ∈ ((decode_step ctx st).1).emits, e.2.1 = emitDest ctx e.1 := by
  simp only [decode_step]
  obtain ⟨hdf, hde⟩ := decode_dict_frame ctx st
  split_ifs
  · simpa [hde] using h
  · simpa [hde] using h
  · obtain ⟨hbf, hbe⟩ := decode_body_frame ctx (decode_dict ctx st)
    simp only [hbe, hde]
    intro e he
    rcases List.mem_append.mp he with he2 | he2
    · exact h e he2
    · exact emit_walk_dest ctx _ _ _ _ _ e he2

theorem decode_loop_dest (ctx : DecCtx) :
    ∀ fuel st st2, decode_loop ctx fuel st = some st2 →
      (∀ e ∈ st.emits, e.2.1 = emitDest ctx e.1) →
      ∀ e ∈ st2.emits, e.2.1 = emitDest ctx e.1 := by
  intro fuel
  induction fuel with
  | zero => intro st st2 h; simp [decode_loop] at h
  | succ fuel ih =>
    intro st st2 h hP
    simp only [decode_loop] at h
    split_ifs at h with hdone
    · cases h
      exact decode_step_preserves_dest ctx st hP
    · exact ih _ _ h (decode_step_preserves_dest ctx st hP)

theorem read_image_data_dest (fuel : Nat) (gif : gd_GIF) (interlace : Bool)
    (frame : List Nat) (bs : BufState) (r : ImgRes)
    (h : read_image_data fuel gif interlace frame bs = some r) :
    ∀ e ∈ r.emits,
      e.2.1 = emitDest { (decode_init gif frame bs).1 with interlace := interlace } e.1 := by
  simp only [read_image_data] at h
  split at h
  · cases h
  · rename_i st hl
    have hd := decode_loop_dest _ _ _ _ hl
      (by rw [show (decode_init gif frame bs).2.emits = [] from rfl]; simp)
    cases h
    simpa using hd

theorem foldl_condWrite_skip (pf : Bool) (t : Nat) :
    ∀ (E : List (Nat × Nat × Nat)) (fr : List Nat) (q : Nat),
      (∀ e ∈ E, e.2.1 = q → (pf = true ∧ e.2.2 = t)) →
      (E.foldl (condWrite pf t) fr).getD q 0 = fr.getD q 0 := by
  intro E
  induction E with
  | nil => intro fr q _; rfl
  | cons f E ih =>
    intro fr q hE
    simp only [List.foldl_cons]
    rw [ih _ q (fun e he hq => hE e (List.mem_cons_of_mem f he) hq)]
    by_cases hq : f.2.1 = q
    · obtain ⟨hpf, hv⟩ := hE f (List.mem_cons_self f E) hq
      unfold condWrite
      rw [if_neg]
      simp [hpf, hv]
    · unfold condWrite
      split_ifs
      · exact getD_set_ne hq
      · rfl

theorem foldl_condWrite_last (pf : Bool) (t : Nat) :
    ∀ E (fr : List Nat) (q : Nat) e, q < fr.length →
      lastEmitAt q E = some e → ((!pf) || (t ≠ e.2.2)) = true →
      (E.foldl (condWrite pf t) fr).getD q 0 = e.2.2 := by
  intro E
  induction E with
  | nil => intro fr q e _ hlast; simp [lastEmitAt] at hlast
  | cons f E ih =>
    intro fr q e hq hlast hpass
    have hrev : (f :: E).reverse = E.reverse ++ [f] := by simp
    unfold lastEmitAt at hlast
    rw [hrev, List.find?_append] at hlast
    simp only [List.foldl_cons]
    rcases hE : E.reverse.find? (fun x => x.2.1 == q) with _ | e2
    · rw [hE] at hlast
      simp only [Option.none_or] at hlast
      have hfq : f.2.1 = q ∧ e = f := by
        rcases hf : (f.2.1 == q) with _ | _
        · simp [List.find?, hf] at hlast
        · simp [List.find?, hf] at hlast
          exact ⟨by simpa using hf, hlast.symm⟩
      obtain ⟨hfq1, hfe⟩ := hfq
      have hnone : ∀ x ∈ E, x.2.1 ≠ q := by
        intro x hx
        have := List.find?_eq_none.mp hE x (by simpa using hx)
        simpa using this
      rw [foldl_condWrite_skip pf t E _ q (fun x hx hxq => absurd hxq (hnone x hx))]
      subst hfe
      unfold condWrite
      rw [if_pos hpass, hfq1]
      exact getD_set_self (by omega)
    · rw [hE] at hlast
      simp only [Option.or] at hlast
      cases hlast
      refine ih _ q e ?_ ?_ hpass
      · rw [condWrite_length]; exact hq
      · unfold lastEmitAt
        exact hE

theorem read_image_data_code (fuel : Nat) (gif : gd_GIF) (interlace : Bool)
    (frame : List Nat) (bs : BufState) (r : ImgRes)
    (h : read_image_data fuel gif interlace frame bs = some r) : r.code = 0 := by
  simp only [read_image_data] at h
  split at h
  · cases h
  · cases h
    rfl

theorem read_image_code (fuel : Nat) (gif : gd_GIF) (frame : List Nat) (bs : BufState)
    (r : ImgRes) (h : read_image fuel gif frame bs = some r) : r.code = 0 := by
  simp only [read_image] at h
  split_ifs at h <;> exact read_image_data_code _ _ _ _ _ _ h

set_option maxRecDepth 2000 in
theorem chanR : ∀ x, x < 256 → (x &&& 248) <<< 8 = x / 8 * 2048 := by decide

set_option maxRecDepth 2000 in
theorem chanG : ∀ x, x < 256 → (x &&& 252) <<< 3 = x / 4 * 32 := by decide

set_option maxRecDepth 2000 in
theorem chanB : ∀ x, x < 256 → (x &&& 248) >>> 3 = x / 8 := by decide

theorem lor_hi_mid : ∀ a, a < 32 → ∀ c, c < 64 →
    a * 2048 ||| c * 32 = a * 2048 + c * 32 := by decide

theorem lor_himid_lo : ∀ a, a < 32 → ∀ c, c < 64 → ∀ e, e < 32 →
    (a * 2048 + c * 32) ||| e = a * 2048 + c * 32 + e := by decide

/-- C5: for a byte stream holding at least the screen descriptor,
gd_open_gif succeeds (returns a session) exactly when the first six
bytes are the GIF89a signature and bit 7 of the packed logical-screen
byte (offset 10, the global-color-table flag) is set; any other header
makes it return NULL. -/
theorem C5_open_iff (d : List Nat) (h11 : 11 ≤ d.length) :
    (gd_open_gif d).isSome ↔
      (d.take 6 = sigGIF ++ sig89a ∧ d.getD 10 0 &&& 128 ≠ 0) :=
  gd_open_gif_isSome_iff d h11

/-- C5 (witness): the single-frame test stream satisfies both sides of
the open characterisation. -/
theorem C5_witness :
    11 ≤ ce2data.length ∧
    ((gd_open_gif ce2data).isSome ↔
      (ce2data.take 6 = sigGIF ++ sig89a ∧ ce2data.getD 10 0 &&& 128 ≠ 0)) :=
  ⟨by decide, C5_open_iff ce2data (by decide)⟩

/-- C8 (counterexample): for height 2 the interlace row map sends
linear row 1 to row 4, outside the frame, so it is not a permutation of
the rows 0..1; the truncating division (2-5)/8 = 0 makes the second
pass count one instead of zero. -/
theorem C8_counterexample :
    interlaced_line_index 2 1 = 4 ∧ iliNat 2 1 = 4 ∧ ¬ iliNat 2 1 < 2 := by
  refine ⟨by decide, by decide, by decide⟩

/-- C8 (amended): for height 1 and every height at least 5 the
interlace row map is a pure function of (h, y) realising the classic
four-pass order: it is a bijection of the rows 0..h-1 whose inverse
iliInv ranks a row inside its pass (multiples of 8, then 4 mod 8, then
2 mod 4, then odd) after the earlier passes.  For heights 2, 3 and 4
the map leaves the row range (see the counterexample). -/
theorem C8_amended (h y r : Nat) (hh : h = 1 ∨ 5 ≤ h) :
    (y < h → iliNat h y < h ∧ iliInv h (iliNat h y) = y) ∧
    (r < h → iliNat h (iliInv h r) = r ∧ iliInv h r < h) := by
  constructor
  · intro hy
    rw [iliNat_eq_natILI]
    exact ⟨natILI_lt h y hh hy, iliInv_natILI h y hh hy⟩
  · intro hr
    rw [iliNat_eq_natILI]
    exact natILI_iliInv h r hh hr

/-- C8 (witness): the bijection at height 16, linear row 5 and row 9. -/
theorem C8_witness :
    (iliNat 16 5 < 16 ∧ iliInv 16 (iliNat 16 5) = 5) ∧
    (iliNat 16 (iliInv 16 9) = 9 ∧ iliInv 16 9 < 16) :=
  ⟨(C8_amended 16 5 9 (by decide)).1 (by decide),
   (C8_amended 16 5 9 (by decide)).2 (by decide)⟩

/-- C9: read_palette stores for every entry i the 16-bit 5-6-5
truncation ((r and 0xF8) shl 8) or ((g and 0xFC) shl 3) or
((b and 0xF8) shr 3) of the three stream bytes of that entry; on byte
inputs the conversion equals the arithmetic form
(r/8)*2048 + (g/4)*32 + b/8, and black maps to 0x0000, white to
0xFFFF. -/
theorem C9_palette :
    (∀ d s n, Inv d s → s.file_pos + 3 * n ≤ d.length → ∀ i, i < n →
      (read_palette s n).1.colors.getD i 0 =
        gifColor565 (d.getD (s.file_pos + 3 * i) 0) (d.getD (s.file_pos + 3 * i + 1) 0)
          (d.getD (s.file_pos + 3 * i + 2) 0)) ∧
    (∀ r g b, r < 256 → g < 256 → b < 256 →
      gifColor565 r g b = r / 8 * 2048 + g / 4 * 32 + b / 8) ∧
    gifColor565 0 0 0 = 0 ∧ gifColor565 255 255 255 = 65535 := by
  refine ⟨?_, ?_, by decide, by decide⟩
  · intro d s n hI hle i hi
    have := (read_palette_go_spec n d s hI hle).1 i hi
    simpa [read_palette] using this
  · intro r g b hr hg hb
    unfold gifColor565
    rw [chanR r hr, chanG g hg, chanB b hb,
      lor_hi_mid _ (by omega) _ (by omega),
      lor_himid_lo _ (by omega) _ (by omega) _ (by omega)]

/-- C9 (witness): the stored entry 1 of a palette read from a concrete
source equals the conversion of its byte triple, and one arithmetic
instance of the conversion. -/
theorem C9_witness :
    (read_palette (initBufState c3data) 2).1.colors.getD 1 0 =
      gifColor565 (c3data.getD 3 0) (c3data.getD 4 0) (c3data.getD 5 0) ∧
    gifColor565 200 100 50 = 200 / 8 * 2048 + 100 / 4 * 32 + 50 / 8 := by
  constructor
  · have := C9_palette.1 c3data (initBufState c3data) 2 (inv_init c3data)
      (by decide) 1 (by decide)
    simpa using this
  · exact C9_palette.2.1 200 100 50 (by decide) (by decide) (by decide)

/-- C3: the claim is the intended contract of gif_buf_seek, and the
code misses it: from the consistent state c3state (9 bytes consumed,
one unread byte buffered), skip(3) should position the reader at
absolute offset 12, but the source seek lands on
file_pos + len - remaining = 11 while file_pos is advanced to 12, so
the next byte served is the byte at offset 11, not 12. -/
theorem C3_bug_eval :
    Inv c3data c3state ∧
    (gif_buf_seek c3state 3).fd.pos = 11 ∧
    (gif_buf_seek c3state 3).file_pos = 12 ∧
    (gif_buf_read1 (gif_buf_seek c3state 3)).1 = c3data.getD 11 0 ∧
    c3data.getD 11 0 ≠ c3data.getD 12 0 := by
  refine ⟨?_, by decide, by decide, by decide, by decide⟩
  unfold Inv
  refine ⟨by decide, rfl, by decide, by decide, ?_⟩
  intro j hj
  have hb : c3state.gif_buf_last_idx - c3state.gif_buf_idx = 1 := rfl
  have hj0 : j = 0 := by omega
  subst hj0
  decide

theorem opt_getD_eq {A : Type} (o : Option A) (d : A) (h : o.isSome = true) :
    o = some (o.getD d) := by
  cases o
  · cases h
  · rfl

set_option maxRecDepth 8000 in
/-- C1 (counterexample): on the two-frame stream the second frame's
graphic control block has transparency flag 0 and transparent index 1,
yet the emitted pixel (index 1 at destination byte 1) is not written:
the destination keeps the 0 written by frame 1 instead of becoming 1.
The source tests only tindex != suffix and never consults the
transparency flag. -/
theorem C1_counterexample :
    (ce1r2.map fun r =>
      (r.gif.gce.transparency, r.gif.gce.tindex, r.emits, r.frame)) =
      some (0, 1, [(0, 0, 0), (1, 1, 1)], [0, 0]) := rfl

/-- C1 (amended): after the first decoded frame, an emitted pixel is
written unless its index equals gce.tindex, regardless of the
transparency flag (condWrite is the source's guarded store); the first
frame ever decoded writes every emitted pixel. -/
theorem C1_amended (fuel : Nat) (gif : gd_GIF) (interlace : Bool) (frame : List Nat)
    (bs : BufState) (r : ImgRes)
    (h : read_image_data fuel gif interlace frame bs = some r) :
    r.frame = r.emits.foldl (condWrite gif.processed_first_frame gif.gce.tindex) frame ∧
    (gif.processed_first_frame = false →
      r.frame = r.emits.foldl (fun fr e => fr.set e.2.1 e.2.2) frame) := by
  have h1 := read_image_data_frame fuel gif interlace frame bs r h
  refine ⟨h1, fun hpf => ?_⟩
  rw [h1]
  congr 1
  funext fr e
  simp [condWrite, hpf]

set_option maxRecDepth 8000 in
/-- C1 (witness): the amended statement evaluated on the bare LZW
first-frame decode. -/
theorem C1_witness :
    read_image_data 64 c1wit_gif false [7, 7] c1wit_bs = some c1wit_res ∧
    c1wit_res.frame = c1wit_res.emits.foldl
      (condWrite c1wit_gif.processed_first_frame c1wit_gif.gce.tindex) [7, 7] :=
  ⟨opt_getD_eq _ default (by decide),
   (C1_amended 64 c1wit_gif false [7, 7] c1wit_bs c1wit_res
     (opt_getD_eq _ default (by decide))).1⟩

set_option maxRecDepth 8000 in
/-- C7 (counterexample): the overflowing stream's frame rectangle is
2 by 1 at the origin of a 2 by 2 canvas, but its bitstream emits three
pixels and the third is written at canvas byte 2 = (0+1)*2+0, outside
the placement rectangle: the byte outside the rectangle does not retain
its prior value 7. -/
theorem C7_counterexample :
    (ce7r.map fun r =>
      (r.gif.fx, r.gif.fy, r.gif.fw, r.gif.fh, r.gif.width, r.emits, r.frame)) =
      some (0, 0, 2, 1, 2, [(0, 0, 1), (1, 1, 1), (2, 2, 0)], [1, 1, 0, 7]) := rfl

/-- C7 (amended): a frame decode changes no byte of the caller's
buffer outside the destinations of its emitted pixels, and for a
non-interlaced frame every emitted linear position below fw*fh lands
inside the placement rectangle; positions beyond fw*fh (an overlong
bitstream) are written below the rectangle by the same linear formula
(see the counterexample). -/
theorem C7_amended (fuel : Nat) (gif : gd_GIF) (interlace : Bool) (frame : List Nat)
    (bs : BufState) (r : ImgRes)
    (h : read_image_data fuel gif interlace frame bs = some r) :
    (∀ q, (∀ e ∈ r.emits, e.2.1 ≠ q) → r.frame.getD q 0 = frame.getD q 0) ∧
    (interlace = false → 0 < gif.fw →
      ∀ e ∈ r.emits, e.1 < gif.fw * gif.fh →
        ∃ x y, x < gif.fw ∧ y < gif.fh ∧
          e.2.1 = (gif.fy + y) * gif.width + gif.fx + x) := by
  constructor
  · intro q hq
    rw [read_image_data_frame fuel gif interlace frame bs r h]
    exact foldl_condWrite_skip _ _ r.emits frame q
      (fun e he heq => absurd heq (hq e he))
  · intro hil hfw e he hlt
    have hd := read_image_data_dest fuel gif interlace frame bs r h e he
    refine ⟨e.1 % gif.fw, e.1 / gif.fw, Nat.mod_lt _ hfw, ?_, ?_⟩
    · exact (Nat.div_lt_iff_lt_mul hfw).mpr (by rw [Nat.mul_comm gif.fh gif.fw]; exact hlt)
    · rw [hd, hil]
      rfl

set_option maxRecDepth 8000 in
/-- C7 (witness): the amended statement evaluated on the bare LZW
decode: byte 5 (never emitted) is unchanged, and the first emitted
pixel (linear position 0) decomposes inside the rectangle. -/
theorem C7_witness :
    c1wit_res.frame.getD 5 0 = ([7, 7] : List Nat).getD 5 0 ∧
    (∃ x y, x < 2 ∧ y < 1 ∧ (0 : Nat) = (0 + y) * 2 + 0 + x) := by
  constructor
  · exact (C7_amended 64 c1wit_gif false [7, 7] c1wit_bs c1wit_res
      (opt_getD_eq _ default (by decide))).1 5 (by decide)
  · have := (C7_amended 64 c1wit_gif false [7, 7] c1wit_bs c1wit_res
      (opt_getD_eq _ default (by decide))).2
      rfl (by decide) (0, 0, 1) (by decide) (by decide)
    simpa using this

/-- C10: a freshly opened session has a zero-initialised graphic
control state (calloc), so the transparent index defaults to 0 and the
transparency flag to 0; consequently on every frame after the first,
any destination byte all of whose emitted pixel indices are 0 is left
unchanged even though the stream never requested transparency. -/
theorem C10_default_transparency :
    (∀ d gif bs, gd_open_gif d = some (gif, bs) →
      gif.gce = { delay := 0, tindex := 0, disposal := 0, input := 0, transparency := 0 }) ∧
    (∀ fuel gif interlace frame bs r q,
      read_image_data fuel gif interlace frame bs = some r →
      gif.processed_first_frame = true → gif.gce.tindex = 0 →
      (∀ e ∈ r.emits, e.2.1 = q → e.2.2 = 0) →
      r.frame.getD q 0 = frame.getD q 0) := by
  constructor
  · intro d gif bs h
    simp only [gd_open_gif] at h
    split_ifs at h
    rw [Option.some.injEq, Prod.mk.injEq] at h
    rw [← h.1]
  · intro fuel gif interlace frame bs r q h hpf ht hq
    rw [read_image_data_frame fuel gif interlace frame bs r h]
    rw [hpf, ht]
    exact foldl_condWrite_skip true 0 r.emits frame q
      (fun e he heq => ⟨rfl, hq e he heq⟩)

set_option maxRecDepth 8000 in
/-- C10 (witness): the opened test session has transparent index 0 and
transparency flag 0, and redecoding its frame with
processed_first_frame set leaves destination byte 1 (whose only
emission has index 0) unchanged. -/
theorem C10_witness :
    ce2open.1.gce = { delay := 0, tindex := 0, disposal := 0, input := 0, transparency := 0 } ∧
    c10wit_res.frame.getD 1 0 = ([7, 7] : List Nat).getD 1 0 := by
  constructor
  · exact C10_default_transparency.1 ce2data ce2open.1 ce2open.2
      (opt_getD_eq _ default (by decide))
  · exact C10_default_transparency.2 64 c10wit_gif false [7, 7] c1wit_bs c10wit_res 1
      (opt_getD_eq _ default (by decide)) (by decide) (by decide) (by decide)

/-- C4 (counterexample): decoding the stream whose bitstream references
the dead table entry 6 after a clear code reports a decoded frame
(gd_get_frame = 1), not ParseError (-1); the ghost flag records that a
lookup ran past the live entry count. -/
theorem C4_counterexample :
    (ce4r.map fun r => (r.code, r.ok)) = some (1, false) := by
  decide

/-- C4 (amended): read_image_data has a single exit path returning 0,
so a truncated or corrupt bitstream is never reported: gd_get_frame
returns -1 only when the top-level block byte is unrecognised, before
any pixel is decoded (the buffer is returned untouched and nothing was
emitted). -/
theorem C4_amended :
    (∀ fuel gif interlace frame bs r,
      read_image_data fuel gif interlace frame bs = some r → r.code = 0) ∧
    (∀ fuel gif frame bs r, gd_get_frame fuel gif frame bs = some r →
      r.code = -1 → r.frame = frame ∧ r.emits = []) := by
  refine ⟨fun fuel gif interlace frame bs r h => read_image_data_code _ _ _ _ _ _ h, ?_⟩
  intro fuel
  induction fuel with
  | zero => intro gif frame bs r h; simp [gd_get_frame] at h
  | succ fuel ih =>
    intro gif frame bs r h hc
    simp only [gd_get_frame] at h
    set sr := (if (gif_buf_read1 bs).1 = 0 then gif_buf_read1 (gif_buf_read1 bs).2
      else gif_buf_read1 bs) with hsr
    split_ifs at h with h44 h59 h33
    · split at h
      · cases h
      · rename_i rr hri
        have hcode := read_image_code _ _ _ _ _ hri
        rw [if_neg (by rw [hcode]; decide)] at h
        cases h
        simp at hc
    · cases h
      simp at hc
    · split at h
      · cases h
      · rename_i gb hre
        exact ih gb.1 frame gb.2 r h hc
    · cases h
      exact ⟨rfl, rfl⟩

set_option maxRecDepth 8000 in
/-- C4 (witness): the amended statement evaluated on the bare LZW
decode (return code 0) and on a stream whose first block byte is 65
(getFrame returns -1 with the buffer untouched). -/
theorem C4_witness :
    c1wit_res.code = 0 ∧ c4bad_res.code = -1 ∧
    c4bad_res.frame = [7, 7] ∧ c4bad_res.emits = [] := by
  refine ⟨C4_amended.1 64 c1wit_gif false [7, 7] c1wit_bs c1wit_res
      (opt_getD_eq _ default (by decide)),
    by decide, ?_, ?_⟩
  · exact (C4_amended.2 4 c1wit_gif [7, 7] (initBufState c4bad_data) c4bad_res
      (opt_getD_eq _ default (by decide)) (by decide)).1
  · exact (C4_amended.2 4 c1wit_gif [7, 7] (initBufState c4bad_data) c4bad_res
      (opt_getD_eq _ default (by decide)) (by decide)).2

theorem decode_dict_clear (ctx : DecCtx) (st : DecSt) (h : st.key = ctx.clear) :
    (decode_dict ctx st).table.nentries = 2 ^ (st.init_key_size - 1) + 2 ∧
    (decode_dict ctx st).key_size = st.init_key_size ∧
    (decode_dict ctx st).table_is_full = false ∧
    (decode_dict ctx st).ret = st.ret ∧
    (decode_dict ctx st).init_key_size = st.init_key_size := by
  simp [decode_dict, h]

theorem decode_dict_full (ctx : DecCtx) (st : DecSt) (h1 : st.key ≠ ctx.clear)
    (h2 : st.table_is_full = true) :
    (decode_dict ctx st).table = st.table ∧
    (decode_dict ctx st).key_size = st.key_size ∧
    (decode_dict ctx st).table_is_full = true ∧
    (decode_dict ctx st).ret = st.ret ∧
    (decode_dict ctx st).init_key_size = st.init_key_size := by
  simp [decode_dict, h1, h2]

theorem decode_dict_add (ctx : DecCtx) (st : DecSt) (h1 : st.key ≠ ctx.clear)
    (h2 : st.table_is_full = false) :
    (decode_dict ctx st).table.nentries = st.table.nentries + 1 ∧
    (decode_dict ctx st).key_size = st.key_size ∧
    (decode_dict ctx st).init_key_size = st.init_key_size ∧
    ((decode_dict ctx st).ret = 1 ↔
      ((st.table.nentries + 1) &&& st.table.nentries = 0 ∧
        st.table.nentries + 1 ≠ 4096)) ∧
    ((decode_dict ctx st).table_is_full = true ↔ st.table.nentries + 1 = 4096) ∧
    ((decode_dict ctx st).table_is_full = true → (decode_dict ctx st).ret = 0) := by
  simp only [decode_dict, h1, h2]
  simp only [add_entry]
  by_cases h3 : st.table.nentries + 1 = 4096
  · simp [h3]
  · simp only [h3, if_false, if_neg h3]
    by_cases h4 : (st.table.nentries + 1) &&& st.table.nentries = 0 <;>
      simp [h4, h3]

theorem decode_body_fields (ctx : DecCtx) (st : DecSt) :
    (decode_body ctx st).table.nentries = st.table.nentries ∧
    (decode_body ctx st).table_is_full = st.table_is_full ∧
    (decode_body ctx st).ret = st.ret ∧
    (decode_body ctx st).init_key_size = st.init_key_size ∧
    (decode_body ctx st).trace = st.trace ∧
    (decode_body ctx st).key_size = (if st.ret = 1 then st.key_size + 1 else st.key_size) := by
  simp only [decode_body]
  split_ifs <;> simp_all

theorem decode_dict_trace (ctx : DecCtx) (st : DecSt) :
    (decode_dict ctx st).trace =
      st.trace ++ [((decode_dict ctx st).key_size, (decode_dict ctx st).table.nentries)] := by
  by_cases h1 : st.key = ctx.clear
  · simp [decode_dict, h1]
  · by_cases h2 : st.table_is_full = false
    · simp only [decode_dict, h1, if_neg h1, h2, if_true]
      split_ifs <;> rfl
    · simp [decode_dict, h1, h2]

theorem decode_dict_inv6 (ctx : DecCtx) (st : DecSt) (hI : Inv6 st) :
    Inv6 (decode_dict ctx st) := by
  obtain ⟨hk, hn, hf, hr⟩ := hI
  by_cases h1 : st.key = ctx.clear
  · obtain ⟨e1, e2, e3, e4, e5⟩ := decode_dict_clear ctx st h1
    have hp : 2 ^ (st.init_key_size - 1) ≤ 2 ^ 11 :=
      Nat.pow_le_pow_right (by omega) (by omega)
    refine ⟨by rw [e5]; exact hk, by rw [e1]; omega, fun _ => by rw [e1]; omega,
      fun hc => by rw [e3] at hc; cases hc⟩
  · by_cases h2 : st.table_is_full = true
    · obtain ⟨e1, e2, e3, e4, e5⟩ := decode_dict_full ctx st h1 h2
      exact ⟨by rw [e5]; exact hk, by rw [e1]; exact hn,
        fun hc => (by rw [e3] at hc; cases hc), fun _ => (by rw [e4]; exact hr h2)⟩
    · have h2f : st.table_is_full = false := by
        cases hx : st.table_is_full
        · rfl
        · exact absurd hx h2
      obtain ⟨e1, e2, e3, e4, e5, e6⟩ := decode_dict_add ctx st h1 h2f
      have hn4 : st.table.nentries ≤ 4095 := hf h2f
      refine ⟨by rw [e3]; exact hk, by rw [e1]; omega, fun hfu => ?_, e6⟩
      rcases hfull : (decode_dict ctx st).table_is_full
      · rw [e1]
        have := (not_iff_not.mpr e5).mp (by rw [hfull]; simp)
        omega
      · rw [hfu] at hfull
        cases hfull
      -- the false case closes by contradiction between hfu and hfull

theorem decode_step_inv6 (ctx : DecCtx) (st : DecSt) (hI : Inv6 st) :
    Inv6 ((decode_step ctx st).1) := by
  simp only [decode_step]
  have hd := decode_dict_inv6 ctx st hI
  split_ifs
  · exact hd
  · exact hd
  · obtain ⟨e1, e2, e3, e4, _, _⟩ := decode_body_fields ctx (decode_dict ctx st)
    obtain ⟨k1, k2, k3, k4⟩ := hd
    exact ⟨by rw [e4]; exact k1, by rw [e1]; exact k2,
      fun hc => by rw [e2] at hc; rw [e1]; exact k3 hc,
      fun hc => by rw [e2] at hc; rw [e3]; exact k4 hc⟩

theorem decode_step_trace (ctx : DecCtx) (st : DecSt) (hI : Inv6 st) :
    ∀ e ∈ ((decode_step ctx st).1).trace, e ∈ st.trace ∨ e.2 ≤ 4096 := by
  have hd6 := decode_dict_inv6 ctx st hI
  have htr := decode_dict_trace ctx st
  have hbound : (decode_dict ctx st).table.nentries ≤ 4096 := hd6.2.1
  simp only [decode_step]
  split_ifs
  · intro e he
    rw [htr] at he
    rcases List.mem_append.mp he with h | h
    · exact Or.inl h
    · simp at h
      right
      rw [h]
      exact hbound
  · intro e he
    rw [htr] at he
    rcases List.mem_append.mp he with h | h
    · exact Or.inl h
    · simp at h
      right
      rw [h]
      exact hbound
  · intro e he
    obtain ⟨_, _, _, _, e5, _⟩ := decode_body_fields ctx (decode_dict ctx st)
    rw [e5, htr] at he
    rcases List.mem_append.mp he with h | h
    · exact Or.inl h
    · simp at h
      right
      rw [h]
      exact hbound

theorem decode_loop_inv6 (ctx : DecCtx) :
    ∀ fuel st st2, Inv6 st → decode_loop ctx fuel st = some st2 →
      Inv6 st2 ∧ ∀ e ∈ st2.trace, e ∈ st.trace ∨ e.2 ≤ 4096 := by
  intro fuel
  induction fuel with
  | zero => intro st st2 _ h; simp [decode_loop] at h
  | succ fuel ih =>
    intro st st2 hI h
    simp only [decode_loop] at h
    split_ifs at h with hdone
    · cases h
      exact ⟨decode_step_inv6 ctx st hI, decode_step_trace ctx st hI⟩
    · obtain ⟨hI2, htr⟩ := ih _ _ (decode_step_inv6 ctx st hI) h
      refine ⟨hI2, fun e he => ?_⟩
      rcases htr e he with h2 | h2
      · exact decode_step_trace ctx st hI e h2
      · exact Or.inr h2

theorem decode_step_key_size (ctx : DecCtx) (st : DecSt) :
    ((decode_step ctx st).1).key_size =
      (if (decode_dict ctx st).key ≠ ctx.clear ∧ (decode_dict ctx st).key ≠ ctx.stop ∧
          (decode_dict ctx st).ret = 1
        then (decode_dict ctx st).key_size + 1 else (decode_dict ctx st).key_size) := by
  simp only [decode_step]
  by_cases h1 : (decode_dict ctx st).key = ctx.clear
  · rw [if_pos h1, if_neg (by simp [h1])]
  · rw [if_neg h1]
    by_cases h2 : (decode_dict ctx st).key = ctx.stop
    · rw [if_pos h2, if_neg (by simp [h2])]
    · rw [if_neg h2]
      obtain ⟨_, _, _, _, _, e6⟩ := decode_body_fields ctx (decode_dict ctx st)
      by_cases h3 : (decode_dict ctx st).ret = 1
      · show (decode_body ctx (decode_dict ctx st)).key_size = _
        rw [e6, if_pos h3, if_pos ⟨h1, h2, h3⟩]
      · show (decode_body ctx (decode_dict ctx st)).key_size = _
        rw [e6, if_neg h3, if_neg (by simp [h3])]

theorem land_bit (a b : Bool) (m n : Nat) :
    Nat.bit a m &&& Nat.bit b n = Nat.bit (a && b) (m &&& n) := by
  show Nat.bitwise and _ _ = _
  rw [Nat.bitwise_bit]
  rfl

theorem land_self (m : Nat) : m &&& m = m :=
  Nat.eq_of_testBit_eq fun i => by rw [Nat.testBit_land, Bool.and_self]

theorem land_succ_pow2 (n : Nat) : ((n + 1) &&& n = 0 ↔ ∃ k, n + 1 = 2 ^ k) := by
  induction n using Nat.strong_induction_on with
  | _ n ih =>
    rcases Nat.even_or_odd n with he | ho
    · obtain ⟨m, hm⟩ := he
      rcases Nat.eq_zero_or_pos m with hm0 | hmpos
      · subst hm0
        have hn0 : n = 0 := by omega
        subst hn0
        constructor
        · intro _
          exact ⟨0, by norm_num⟩
        · intro _
          decide
      · have h1 : n + 1 = Nat.bit true m := by rw [Nat.bit_val]; simp; omega
        have h2 : n = Nat.bit false m := by rw [Nat.bit_val]; simp; omega
        rw [h1, h2, land_bit, land_self]
        constructor
        · intro h0
          exfalso
          rw [Nat.bit_val] at h0
          simp at h0
          omega
        · rintro ⟨k, hk⟩
          exfalso
          rw [Nat.bit_val] at hk
          simp at hk
          rcases k with _ | k
          · simp at hk
            omega
          · rw [pow_succ] at hk
            omega
    · obtain ⟨m, hm⟩ := ho
      have h1 : n + 1 = Nat.bit false (m + 1) := by rw [Nat.bit_val]; simp; omega
      have h2 : n = Nat.bit true m := by rw [Nat.bit_val]; simp; omega
      have ihm := ih m (by omega)
      rw [h1, h2, land_bit]
      constructor
      · intro h0
        rw [Nat.bit_val] at h0
        simp at h0
        obtain ⟨k, hk⟩ := ihm.mp (by omega)
        refine ⟨k + 1, ?_⟩
        rw [Nat.bit_val]
        simp
        rw [pow_succ]
        omega
      · rintro ⟨k, hk⟩
        rw [Nat.bit_val] at hk
        simp at hk
        rcases k with _ | k
        · exfalso
          simp at hk
        · rw [pow_succ] at hk
          have h3 : (m + 1) &&& m = 0 := ihm.mpr ⟨k, by omega⟩
          rw [Nat.bit_val]
          simp [h3]

theorem pow2_bit_test : ∀ n, n < 8191 →
    ((n + 1) &&& n = 0 ↔ ∃ k, k < 14 ∧ n + 1 = 2 ^ k) := by
  intro n hn
  rw [land_succ_pow2 n]
  constructor
  · rintro ⟨k, hk⟩
    refine ⟨k, ?_, hk⟩
    by_contra hge
    push_neg at hge
    have hle : (2 : Nat) ^ 14 ≤ 2 ^ k := Nat.pow_le_pow_right (by norm_num) hge
    have h14 : (2 : Nat) ^ 14 = 16384 := by norm_num
    omega
  · rintro ⟨k, _, hk⟩
    exact ⟨k, hk⟩

/-- C6 (counterexample): on the stream with codes clear 1 2 clear 1
stop (minimum code size 2), the recorded (width, entry count) at each
code read is (3,6) (3,6) (3,7) (3,8) (3,6) (4,7): the sixth code is
read at width 4 although the table holds only 7 < 8 entries and a clear
code (which reset the width to 3 and the count to 6) had just been
processed — the pending width increase from the add that reached 8
entries survives the clear and fires one code later. -/
theorem C6_counterexample :
    (ce6r.map fun r => r.trace) =
      some [(3, 6), (3, 6), (3, 7), (3, 8), (3, 6), (4, 7)] ∧ (7 : Nat) < 8 :=
  ⟨by decide, by decide⟩

/-- C6 (amended): the decode starts with width m+1 and count
2^m + 2 (clearCode + 2); a clear code resets the count to clearCode+2,
the width to m+1 and unfreezes the table, but leaves the pending-growth
flag ret alone, so a power-of-two crossing immediately before a clear
still widens the width by one bit after the first data code following
the clear; while frozen the table is unchanged; an add grows the count
by one and signals growth exactly when the new count has the
power-of-two bit pattern and is not 4096; the width grows by one
exactly on that signal, when the following code is data; and along any
completed decode the count never exceeds 4096 (Inv6 is preserved and
every recorded trace entry is bounded by 4096). -/
theorem C6_amended :
    (∀ gif frame bs,
      (decode_init gif frame bs).2.key_size = (gif_buf_read1 bs).1 + 1 ∧
      (decode_init gif frame bs).2.init_key_size = (gif_buf_read1 bs).1 + 1 ∧
      (decode_init gif frame bs).2.table.nentries = 2 ^ (gif_buf_read1 bs).1 + 2 ∧
      (decode_init gif frame bs).1.clear = 1 <<< (gif_buf_read1 bs).1 ∧
      (decode_init gif frame bs).1.stop = 1 <<< (gif_buf_read1 bs).1 + 1) ∧
    (∀ ctx st, st.key = ctx.clear →
      (decode_dict ctx st).table.nentries = 2 ^ (st.init_key_size - 1) + 2 ∧
      (decode_dict ctx st).key_size = st.init_key_size ∧
      (decode_dict ctx st).table_is_full = false ∧
      (decode_dict ctx st).ret = st.ret) ∧
    (∀ ctx st, st.key ≠ ctx.clear → st.table_is_full = true →
      (decode_dict ctx st).table = st.table) ∧
    (∀ ctx st, st.key ≠ ctx.clear → st.table_is_full = false →
      (decode_dict ctx st).table.nentries = st.table.nentries + 1 ∧
      ((decode_dict ctx st).ret = 1 ↔
        ((st.table.nentries + 1) &&& st.table.nentries = 0 ∧
          st.table.nentries + 1 ≠ 4096))) ∧
    (∀ n, n < 8191 → ((n + 1) &&& n = 0 ↔ ∃ k, k < 14 ∧ n + 1 = 2 ^ k)) ∧
    (∀ ctx st, ((decode_step ctx st).1).key_size =
      (if (decode_dict ctx st).key ≠ ctx.clear ∧ (decode_dict ctx st).key ≠ ctx.stop ∧
          (decode_dict ctx st).ret = 1
        then (decode_dict ctx st).key_size + 1 else (decode_dict ctx st).key_size)) ∧
    (∀ ctx fuel st st2, Inv6 st → decode_loop ctx fuel st = some st2 →
      Inv6 st2 ∧ ∀ e ∈ st2.trace, e ∈ st.trace ∨ e.2 ≤ 4096) := by
  refine ⟨fun gif frame bs => ⟨rfl, rfl, rfl, rfl, rfl⟩, ?_, ?_, ?_, pow2_bit_test,
    decode_step_key_size, ?_⟩
  · intro ctx st h
    obtain ⟨e1, e2, e3, e4, _⟩ := decode_dict_clear ctx st h
    exact ⟨e1, e2, e3, e4⟩
  · intro ctx st h1 h2
    exact (decode_dict_full ctx st h1 h2).1
  · intro ctx st h1 h2
    obtain ⟨e1, _, _, e4, _, _⟩ := decode_dict_add ctx st h1 h2
    exact ⟨e1, e4⟩
  · intro ctx fuel st st2 hI h
    exact decode_loop_inv6 ctx fuel st st2 hI h

/-- C6 (witness): on the bare LZW decode, processing the leading clear
code resets the width to the initial m+1, and the completed loop keeps
the entry count at most 4096. -/
theorem C6_witness :
    (decode_dict c6wit_ctx c6wit_st0).key_size = c6wit_st0.init_key_size ∧
    c6wit_st2.table.nentries ≤ 4096 := by
  constructor
  · exact (C6_amended.2.1 c6wit_ctx c6wit_st0 (by decide)).2.1
  · exact (C6_amended.2.2.2.2.2.2 c6wit_ctx 64 c6wit_st0 c6wit_st2
      ⟨by decide, by decide, fun _ => by decide,
        fun hc => absurd hc (by decide)⟩ (opt_getD_eq _ default (by decide))).1.2.1

theorem fetch_fp_mono (st : KeySt) : st.bs.file_pos ≤ (get_key_fetch st).bs.file_pos := by
  unfold get_key_fetch
  by_cases h : st.sub_len = 0 <;> simp [h, read1_fp] <;> omega

theorem fetch_data (st : KeySt) : (get_key_fetch st).bs.fd.data = st.bs.fd.data := by
  unfold get_key_fetch
  by_cases h : st.sub_len = 0 <;> simp [h, read1_data]

theorem get_key_go_fp_mono (w : Nat) :
    ∀ fuel bits key st, st.bs.file_pos ≤ (get_key_go w fuel bits key st).2.bs.file_pos := by
  intro fuel
  induction fuel with
  | zero => intro bits key st; exact le_refl _
  | succ fuel ih =>
    intro bits key st
    simp only [get_key_go]
    split_ifs with h1 h2
    · exact le_trans (fetch_fp_mono st) (ih _ _ _)
    · exact ih _ _ _
    · exact le_refl _

theorem get_key_go_data (w : Nat) :
    ∀ fuel bits key st, (get_key_go w fuel bits key st).2.bs.fd.data = st.bs.fd.data := by
  intro fuel
  induction fuel with
  | zero => intro bits key st; rfl
  | succ fuel ih =>
    intro bits key st
    simp only [get_key_go]
    split_ifs with h1 h2
    · rw [ih, fetch_data]
    · exact ih _ _ _
    · rfl

theorem get_key_fp_mono (w : Nat) (st : KeySt) :
    st.bs.file_pos ≤ (get_key w st).2.bs.file_pos := by
  unfold get_key
  exact get_key_go_fp_mono w w 0 0 st

theorem get_key_data (w : Nat) (st : KeySt) :
    (get_key w st).2.bs.fd.data = st.bs.fd.data := by
  unfold get_key
  exact get_key_go_data w w 0 0 st

theorem decode_dict_bs (ctx : DecCtx) (st : DecSt) :
    (decode_dict ctx st).bs =
      (get_key (decode_dict ctx st).key_size
        { sub_len := st.sub_len, shift := st.shift, byte := st.byte, bs := st.bs }).2.bs := by
  by_cases h1 : st.key = ctx.clear
  · simp [decode_dict, h1]
  · by_cases h2 : st.table_is_full = false
    · simp only [decode_dict, h1, if_neg h1, h2, if_true]
      split_ifs <;> rfl
    · simp [decode_dict, h1, h2]

theorem decode_dict_fp_mono (ctx : DecCtx) (st : DecSt) :
    st.bs.file_pos ≤ (decode_dict ctx st).bs.file_pos := by
  rw [decode_dict_bs]
  exact get_key_fp_mono (decode_dict ctx st).key_size
    { sub_len := st.sub_len, shift := st.shift, byte := st.byte, bs := st.bs }

theorem decode_dict_data (ctx : DecCtx) (st : DecSt) :
    (decode_dict ctx st).bs.fd.data = st.bs.fd.data := by
  rw [decode_dict_bs, get_key_data]

theorem decode_body_bs (ctx : DecCtx) (st : DecSt) :
    (decode_body ctx st).bs = st.bs := by
  simp only [decode_body]
  split_ifs <;> rfl

theorem decode_step_fp_mono (ctx : DecCtx) (st : DecSt) :
    st.bs.file_pos ≤ ((decode_step ctx st).1).bs.file_pos := by
  simp only [decode_step]
  split_ifs
  · exact decode_dict_fp_mono ctx st
  · exact decode_dict_fp_mono ctx st
  · rw [decode_body_bs]
    exact decode_dict_fp_mono ctx st

theorem decode_step_data (ctx : DecCtx) (st : DecSt) :
    ((decode_step ctx st).1).bs.fd.data = st.bs.fd.data := by
  simp only [decode_step]
  split_ifs
  · exact decode_dict_data ctx st
  · exact decode_dict_data ctx st
  · rw [decode_body_bs]
    exact decode_dict_data ctx st

theorem decode_loop_fp_mono (ctx : DecCtx) :
    ∀ fuel st st2, decode_loop ctx fuel st = some st2 →
      st.bs.file_pos ≤ st2.bs.file_pos := by
  intro fuel
  induction fuel with
  | zero => intro st st2 h; simp [decode_loop] at h
  | succ fuel ih =>
    intro st st2 h
    simp only [decode_loop] at h
    split_ifs at h with hdone
    · cases h
      exact decode_step_fp_mono ctx st
    · exact le_trans (decode_step_fp_mono ctx st) (ih _ _ h)

theorem decode_loop_data (ctx : DecCtx) :
    ∀ fuel st st2, decode_loop ctx fuel st = some st2 →
      st2.bs.fd.data = st.bs.fd.data := by
  intro fuel
  induction fuel with
  | zero => intro st st2 h; simp [decode_loop] at h
  | succ fuel ih =>
    intro st st2 h
    simp only [decode_loop] at h
    split_ifs at h with hdone
    · cases h
      exact decode_step_data ctx st
    · rw [ih _ _ h, decode_step_data]

theorem decode_loop_ok_false (ctx : DecCtx) :
    ∀ fuel st st2, decode_loop ctx fuel st = some st2 → st.ok = false → st2.ok = false := by
  have hstep : ∀ st, st.ok = false → ((decode_step ctx st).1).ok = false := by
    intro st hok
    have hd : (decode_dict ctx st).ok = st.ok := by
      by_cases h1 : st.key = ctx.clear
      · simp [decode_dict, h1]
      · by_cases h2 : st.table_is_full = false
        · simp only [decode_dict, h1, if_neg h1, h2, if_true]
          split_ifs <;> rfl
        · simp [decode_dict, h1, h2]
    simp only [decode_step]
    split_ifs
    · rw [hd]; exact hok
    · rw [hd]; exact hok
    · have hb : (decode_body ctx (decode_dict ctx st)).ok =
          (((decode_dict ctx st).ok &&
            decide ((decode_dict ctx st).key < (decode_dict ctx st).table.nentries)) &&
            (emit_walk ctx (decode_dict ctx st).table WALK_FUEL
              ((decode_dict ctx st).table.entries.getD (decode_dict ctx st).key
                { len := 0, pfx := 0, suffix := 0 })
              (decode_dict ctx st).frm_off (decode_dict ctx st).frame).ok) := by
        simp only [decode_body]
        split_ifs <;> rfl
      rw [hb, hd, hok]
      simp
  intro fuel
  induction fuel with
  | zero => intro st st2 h; simp [decode_loop] at h
  | succ fuel ih =>
    intro st st2 h hok
    simp only [decode_loop] at h
    split_ifs at h with hdone
    · cases h
      exact hstep st hok
    · exact ih _ _ h (hstep st hok)

theorem decode_loop_step_ok (ctx : DecCtx) (fuel : Nat) (st st2 : DecSt)
    (h : decode_loop ctx (fuel + 1) st = some st2) (hok : st2.ok = true)
    (hcont : (decode_step ctx st).2 = false) :
    ((decode_step ctx st).1).ok = true := by
  rcases hx : ((decode_step ctx st).1).ok with _ | _
  · exfalso
    simp only [decode_loop] at h
    rw [hcont] at h
    rw [if_neg (by simp)] at h
    have := decode_loop_ok_false ctx fuel _ _ h hx
    rw [hok] at this
    cases this
  · rfl

theorem read1_sim (d : List Nat) (s t : BufState) (hS : Sim d s t)
    (hlt : s.file_pos < d.length) :
    (gif_buf_read1 s).1 = (gif_buf_read1 t).1 ∧
    Sim d (gif_buf_read1 s).2 (gif_buf_read1 t).2 := by
  obtain ⟨hIs, hIt, hfp⟩ := hS
  obtain ⟨v1, I1⟩ := read1_spec d s hIs hlt
  obtain ⟨v2, I2⟩ := read1_spec d t hIt (hfp ▸ hlt)
  exact ⟨by rw [v1, v2, hfp], I1, I2, by rw [read1_fp, read1_fp, hfp]⟩

theorem read16_sim (d : List Nat) (s t : BufState) (hS : Sim d s t)
    (hlt : s.file_pos + 2 ≤ d.length) :
    (gif_buf_read16 s).1 = (gif_buf_read16 t).1 ∧
    Sim d (gif_buf_read16 s).2 (gif_buf_read16 t).2 := by
  obtain ⟨hIs, hIt, hfp⟩ := hS
  obtain ⟨v1, I1⟩ := read16_spec d s hIs hlt
  obtain ⟨v2, I2⟩ := read16_spec d t hIt (hfp ▸ hlt)
  exact ⟨by rw [v1, v2, hfp], I1, I2, by rw [read16_fp, read16_fp, hfp]⟩

theorem palette_go_sim (d : List Nat) (n : Nat) (s t : BufState) (hS : Sim d s t)
    (hle : s.file_pos + 3 * n ≤ d.length) :
    Sim d (read_palette_go n s).2 (read_palette_go n t).2 := by
  obtain ⟨hIs, hIt, hfp⟩ := hS
  exact ⟨(read_palette_go_spec n d s hIs hle).2,
    (read_palette_go_spec n d t hIt (hfp ▸ hle)).2,
    by rw [read_palette_go_fp, read_palette_go_fp, hfp]⟩

theorem fetch_fp_zero (s : KeySt) (h0 : s.sub_len = 0) :
    (get_key_fetch s).bs.file_pos = s.bs.file_pos + 2 := by
  simp [get_key_fetch, h0, read1_fp]

theorem fetch_fp_pos (s : KeySt) (h0 : ¬ s.sub_len = 0) :
    (get_key_fetch s).bs.file_pos = s.bs.file_pos + 1 := by
  simp [get_key_fetch, h0, read1_fp]

theorem fetch_sim (d : List Nat) (s t : KeySt) (hsub : s.sub_len = t.sub_len)
    (hsh : s.shift = t.shift) (hby : s.byte = t.byte) (hS : Sim d s.bs t.bs)
    (hle : (get_key_fetch s).bs.file_pos ≤ d.length) :
    (get_key_fetch s).sub_len = (get_key_fetch t).sub_len ∧
    (get_key_fetch s).shift = (get_key_fetch t).shift ∧
    (get_key_fetch s).byte = (get_key_fetch t).byte ∧
    Sim d (get_key_fetch s).bs (get_key_fetch t).bs := by
  by_cases h0 : s.sub_len = 0
  · have h0t : t.sub_len = 0 := hsub ▸ h0
    have hfp2 := fetch_fp_zero s h0
    obtain ⟨e1, S1⟩ := read1_sim d s.bs t.bs hS (by omega)
    obtain ⟨e2, S2⟩ := read1_sim d _ _ S1 (by rw [read1_fp]; omega)
    refine ⟨?_, ?_, ?_, ?_⟩
    · simp only [get_key_fetch, h0, h0t, if_true]
      rw [e1]
    · simp only [get_key_fetch, h0, h0t, if_true]
      exact hsh
    · simp only [get_key_fetch, h0, h0t, if_true]
      rw [e2]
    · simp only [get_key_fetch, h0, h0t, if_true]
      exact S2
  · have h0t : ¬ t.sub_len = 0 := hsub ▸ h0
    have hfp1 := fetch_fp_pos s h0
    obtain ⟨e1, S1⟩ := read1_sim d s.bs t.bs hS (by omega)
    refine ⟨?_, ?_, ?_, ?_⟩
    · simp only [get_key_fetch, h0, h0t, if_false]
      rw [hsub]
    · simp only [get_key_fetch, h0, h0t, if_false]
      exact hsh
    · simp only [get_key_fetch, h0, h0t, if_false]
      rw [e1]
    · simp only [get_key_fetch, h0, h0t, if_false]
      exact S1

theorem get_key_go_sim (d : List Nat) (w : Nat) :
    ∀ fuel bits key (s t : KeySt),
      s.sub_len = t.sub_len → s.shift = t.shift → s.byte = t.byte → Sim d s.bs t.bs →
      (get_key_go w fuel bits key s).2.bs.file_pos ≤ d.length →
      (get_key_go w fuel bits key s).1 = (get_key_go w fuel bits key t).1 ∧
      (get_key_go w fuel bits key s).2.sub_len = (get_key_go w fuel bits key t).2.sub_len ∧
      (get_key_go w fuel bits key s).2.shift = (get_key_go w fuel bits key t).2.shift ∧
      (get_key_go w fuel bits key s).2.byte = (get_key_go w fuel bits key t).2.byte ∧
      Sim d (get_key_go w fuel bits key s).2.bs (get_key_go w fuel bits key t).2.bs := by
  intro fuel
  induction fuel with
  | zero => intro bits key s t h1 h2 h3 hS _; exact ⟨rfl, h1, h2, h3, hS⟩
  | succ fuel ih =>
    intro bits key s t h1 h2 h3 hS hle
    by_cases hb : bits < w
    · by_cases hr : (s.shift + bits) % 8 = 0
      · have hrt : (t.shift + bits) % 8 = 0 := h2 ▸ hr
        have hle2 : (get_key_fetch s).bs.file_pos ≤ d.length := by
          have := get_key_go_fp_mono w fuel
            (bits + min (w - bits) (8 - ((get_key_fetch s).shift + bits) % 8))
            ((key ||| ((get_key_fetch s).byte >>> (((get_key_fetch s).shift + bits) % 8)) <<< bits) % 65536)
            (get_key_fetch s)
          simp only [get_key_go, hb, if_true, hr, if_true] at hle
          omega
        obtain ⟨f1, f2, f3, fS⟩ := fetch_sim d s t h1 h2 h3 hS hle2
        have hle3 : (get_key_go w fuel
            (bits + min (w - bits) (8 - ((get_key_fetch s).shift + bits) % 8))
            ((key ||| ((get_key_fetch s).byte >>> (((get_key_fetch s).shift + bits) % 8)) <<< bits) % 65536)
            (get_key_fetch s)).2.bs.file_pos ≤ d.length := by
          simp only [get_key_go, hb, if_true, hr, if_true] at hle
          exact hle
        have := ih (bits + min (w - bits) (8 - ((get_key_fetch s).shift + bits) % 8))
          ((key ||| ((get_key_fetch s).byte >>> (((get_key_fetch s).shift + bits) % 8)) <<< bits) % 65536)
          (get_key_fetch s) (get_key_fetch t) f1 f2 f3 fS hle3
        simp only [get_key_go, hb, if_true, hr, hrt, if_true]
        rw [f2, f3] at this ⊢
        exact this
      · have hrt : ¬ (t.shift + bits) % 8 = 0 := h2 ▸ hr
        have hle3 : (get_key_go w fuel (bits + min (w - bits) (8 - (s.shift + bits) % 8))
            ((key ||| (s.byte >>> ((s.shift + bits) % 8)) <<< bits) % 65536)
            s).2.bs.file_pos ≤ d.length := by
          simp only [get_key_go, hb, if_true, hr, if_false] at hle
          exact hle
        have := ih (bits + min (w - bits) (8 - (s.shift + bits) % 8))
          ((key ||| (s.byte >>> ((s.shift + bits) % 8)) <<< bits) % 65536)
          s t h1 h2 h3 hS hle3
        simp only [get_key_go, hb, if_true, hr, hrt, if_false]
        rw [h2, h3] at this ⊢
        exact this
    · simp only [get_key_go, hb, if_false]
      exact ⟨by trivial, h1, h2, h3, hS⟩

theorem get_key_sim (d : List Nat) (w : Nat) (s t : KeySt)
    (h1 : s.sub_len = t.sub_len) (h2 : s.shift = t.shift) (h3 : s.byte = t.byte)
    (hS : Sim d s.bs t.bs)
    (hle : (get_key w s).2.bs.file_pos ≤ d.length) :
    (get_key w s).1 = (get_key w t).1 ∧
    (get_key w s).2.sub_len = (get_key w t).2.sub_len ∧
    (get_key w s).2.shift = (get_key w t).2.shift ∧
    (get_key w s).2.byte = (get_key w t).2.byte ∧
    Sim d (get_key w s).2.bs (get_key w t).2.bs := by
  have hle2 : (get_key_go w w 0 0 s).2.bs.file_pos ≤ d.length := hle
  obtain ⟨e1, e2, e3, e4, eS⟩ := get_key_go_sim d w w 0 0 s t h1 h2 h3 hS hle2
  simp only [get_key]
  exact ⟨by rw [e1], by simp [e2], by simp [e3], by simp [e4], eS⟩

theorem getD_set_self_entry {l : List gd_Entry} {q : Nat} {a d : gd_Entry}
    (h : q < l.length) : (l.set q a).getD q d = a := by
  simp [List.getD_eq_getElem?_getD, List.getElem?_set_self, h]


theorem getD_set_general (l : List gd_Entry) (i : Nat) (v d : gd_Entry) :
    (l.set i v).getD i d = if i < l.length then v else d := by
  split_ifs with h
  · exact getD_set_self_entry h
  · rw [List.set_eq_of_length_le (by omega)]
    simp [List.getD_eq_getElem?_getD, List.getElem?_eq_none (by omega : l.length ≤ i)]

theorem getD_set_ne_entry {l : List gd_Entry} {i j : Nat} {a d : gd_Entry} (h : i ≠ j) :
    (l.set i a).getD j d = l.getD j d := by
  simp [List.getD_eq_getElem?_getD, List.getElem?_set_ne h]

theorem foldl_set_length (f : Nat → gd_Entry) :
    ∀ (ks : List Nat) (es : List gd_Entry),
      (ks.foldl (fun es k => es.set k (f k)) es).length = es.length := by
  intro ks
  induction ks with
  | nil => intro es; rfl
  | cons k ks ih => intro es; rw [List.foldl_cons, ih]; simp

theorem reset_getD_root (f : Nat → gd_Entry) :
    ∀ n (es : List gd_Entry) k d, k < n →
      ((List.range n).foldl (fun es key => es.set key (f key)) es).getD k d =
        (if k < es.length then f k else d) := by
  intro n
  induction n with
  | zero => intro es k d hk; omega
  | succ n ih =>
    intro es k d hk
    rw [List.range_succ, List.foldl_append]
    simp only [List.foldl_cons, List.foldl_nil]
    rcases Nat.lt_or_ge k n with h | h
    · rw [getD_set_ne_entry (by omega), ih es k d h]
    · have hkn : k = n := by omega
      subst hkn
      rw [getD_set_general]
      rw [foldl_set_length]
  -- both branches of the if agree after the length rewrite

theorem reset_getD_high (f : Nat → gd_Entry) :
    ∀ n (es : List gd_Entry) k d, n ≤ k →
      ((List.range n).foldl (fun es key => es.set key (f key)) es).getD k d =
        es.getD k d := by
  intro n
  induction n with
  | zero => intro es k d _; rfl
  | succ n ih =>
    intro es k d hk
    rw [List.range_succ, List.foldl_append]
    simp only [List.foldl_cons, List.foldl_nil]
    rw [getD_set_ne_entry (by omega), ih es k d (by omega)]

theorem reset_table_length (t : gd_Table) (m : Nat) :
    (reset_table t m).entries.length = t.entries.length := by
  unfold reset_table
  exact foldl_set_length _ _ _

theorem tablesim_reset (m : Nat) (t1 t2 : gd_Table)
    (hlen : t1.entries.length = t2.entries.length) :
    TableSim (2 ^ m) (reset_table t1 m) (reset_table t2 m) := by
  refine ⟨rfl, by rw [reset_table_length, reset_table_length, hlen], ?_⟩
  intro k hk hkc hkc1
  have hkm : k < 2 ^ m := by
    have : k < 2 ^ m + 2 := hk
    omega
  unfold reset_table
  rw [reset_getD_root _ _ _ _ _ hkm, reset_getD_root _ _ _ _ _ hkm, hlen]

theorem tablesim_add (cl : Nat) (t1 t2 : gd_Table) (h : TableSim cl t1 t2)
    (len pfx suffix : Nat) :
    TableSim cl (add_entry t1 len pfx suffix).1 (add_entry t2 len pfx suffix).1 ∧
    (add_entry t1 len pfx suffix).2 = (add_entry t2 len pfx suffix).2 ∧
    (add_entry t1 len pfx suffix).1.nentries = t1.nentries + 1 := by
  obtain ⟨hne, hlen, hag⟩ := h
  refine ⟨⟨by simp [add_entry, hne], by simp [add_entry, hlen], ?_⟩,
    by simp [add_entry, hne], by simp [add_entry]⟩
  intro k hk hkc hkc1
  simp only [add_entry] at hk ⊢
  rcases Nat.lt_or_ge k t1.nentries with h2 | h2
  · rw [getD_set_ne_entry (by omega), getD_set_ne_entry (by omega)]
    exact hag k h2 hkc hkc1
  · have hkn : k = t1.nentries := by omega
    subst hkn
    rw [getD_set_general, hne, getD_set_general, hlen]

theorem tablesim_patch (cl : Nat) (t1 t2 : gd_Table) (h : TableSim cl t1 t2)
    (i : Nat) (hi : i < t1.nentries) (sfx : Nat) :
    TableSim cl
      { nentries := t1.nentries
        entries := t1.entries.set i
          (let e := t1.entries.getD i { len := 0, pfx := 0, suffix := 0 }
           { len := e.len, pfx := e.pfx, suffix := sfx }) }
      { nentries := t2.nentries
        entries := t2.entries.set i
          (let e := t2.entries.getD i { len := 0, pfx := 0, suffix := 0 }
           { len := e.len, pfx := e.pfx, suffix := sfx }) } := by
  obtain ⟨hne, hlen, hag⟩ := h
  refine ⟨hne, by simp [hlen], ?_⟩
  intro k hk hkc hkc1
  simp only at hk ⊢
  rcases eq_or_ne k i with rfl | hki
  · rw [getD_set_general, getD_set_general, hlen, hag k hi hkc hkc1]
  · rw [getD_set_ne_entry (Ne.symm hki), getD_set_ne_entry (Ne.symm hki)]
    exact hag k hk hkc hkc1

theorem getD_out {l : List Nat} {i : Nat} (h : l.length ≤ i) : l.getD i 0 = 0 := by
  simp [List.getD_eq_getElem?_getD, List.getElem?_eq_none h]

theorem emitDest_ctxsim {c1 c2 : DecCtx} (hC : CtxSim c1 c2) (p : Nat) :
    emitDest c1 p = emitDest c2 p := by
  obtain ⟨_, _, _, hil, hfx, hfy, hfw, hfh, hw⟩ := hC
  simp only [emitDest]
  rw [hil, hfx, hfy, hfw, hfh, hw]

theorem decode_step_bs (ctx : DecCtx) (st : DecSt) :
    ((decode_step ctx st).1).bs = (decode_dict ctx st).bs := by
  simp only [decode_step]
  split_ifs
  · rfl
  · rfl
  · exact decode_body_bs ctx (decode_dict ctx st)

theorem readN_data (n : Nat) : ∀ s : BufState, (gif_buf_readN n s).2.fd.data = s.fd.data := by
  induction n with
  | zero => intro s; rfl
  | succ n ih => intro s; simp [gif_buf_readN, ih, read1_data]

theorem read16_data (s : BufState) : (gif_buf_read16 s).2.fd.data = s.fd.data := by
  simp [gif_buf_read16, read1_data]

theorem palette_go_data (n : Nat) :
    ∀ s : BufState, (read_palette_go n s).2.fd.data = s.fd.data := by
  induction n with
  | zero => intro s; rfl
  | succ n ih => intro s; simp [read_palette_go, ih, read1_data]

theorem decode_dict_reader (ctx : DecCtx) (st : DecSt) :
    (decode_dict ctx st).key_size =
      (if st.key = ctx.clear then st.init_key_size else st.key_size) ∧
    (decode_dict ctx st).key =
      (get_key (if st.key = ctx.clear then st.init_key_size else st.key_size)
        { sub_len := st.sub_len, shift := st.shift, byte := st.byte, bs := st.bs }).1 ∧
    (decode_dict ctx st).sub_len =
      (get_key (if st.key = ctx.clear then st.init_key_size else st.key_size)
        { sub_len := st.sub_len, shift := st.shift, byte := st.byte, bs := st.bs }).2.sub_len ∧
    (decode_dict ctx st).shift =
      (get_key (if st.key = ctx.clear then st.init_key_size else st.key_size)
        { sub_len := st.sub_len, shift := st.shift, byte := st.byte, bs := st.bs }).2.shift ∧
    (decode_dict ctx st).byte =
      (get_key (if st.key = ctx.clear then st.init_key_size else st.key_size)
        { sub_len := st.sub_len, shift := st.shift, byte := st.byte, bs := st.bs }).2.byte ∧
    (decode_dict ctx st).bs =
      (get_key (if st.key = ctx.clear then st.init_key_size else st.key_size)
        { sub_len := st.sub_len, shift := st.shift, byte := st.byte, bs := st.bs }).2.bs := by
  by_cases h1 : st.key = ctx.clear
  · simp [decode_dict, h1]
  · by_cases h2 : st.table_is_full = false
    · simp only [decode_dict, if_neg h1, h2, if_true]
      split_ifs <;> simp [h1]
    · simp [decode_dict, h1, h2]

theorem decode_dict_ghost (ctx : DecCtx) (st : DecSt) :
    (decode_dict ctx st).str_len = st.str_len ∧
    (decode_dict ctx st).entry = st.entry ∧
    (decode_dict ctx st).frm_off = st.frm_off ∧
    (decode_dict ctx st).emits = st.emits ∧
    (decode_dict ctx st).ok = st.ok ∧
    (decode_dict ctx st).frame = st.frame ∧
    (decode_dict ctx st).init_key_size = st.init_key_size := by
  by_cases h1 : st.key = ctx.clear
  · simp [decode_dict, h1]
  · by_cases h2 : st.table_is_full = false
    · simp only [decode_dict, if_neg h1, h2, if_true]
      split_ifs <;> simp [h1]
    · simp [decode_dict, h1, h2]

theorem decode_dict_entries_clear (ctx : DecCtx) (st : DecSt) (h : st.key = ctx.clear) :
    (decode_dict ctx st).table.entries = st.table.entries := by
  simp [decode_dict, h]

theorem decode_dict_table3 (ctx : DecCtx) (st : DecSt) (h1 : st.key ≠ ctx.clear)
    (h2 : st.table_is_full = false) :
    (decode_dict ctx st).table =
      (add_entry st.table (st.str_len + 1) st.key st.entry.suffix).1 ∧
    (decode_dict ctx st).ret =
      (if st.table.nentries + 1 = 4096 then 0
       else (add_entry st.table (st.str_len + 1) st.key st.entry.suffix).2) ∧
    (decode_dict ctx st).table_is_full =
      (if st.table.nentries + 1 = 4096 then true else st.table_is_full) := by
  simp only [decode_dict, if_neg h1, h2, if_true]
  simp only [add_entry]
  split_ifs <;> simp

theorem decode_body_all (ctx : DecCtx) (st : DecSt) :
    (decode_body ctx st).key = st.key ∧
    (decode_body ctx st).sub_len = st.sub_len ∧
    (decode_body ctx st).shift = st.shift ∧
    (decode_body ctx st).byte = st.byte ∧
    (decode_body ctx st).str_len =
      (st.table.entries.getD st.key { len := 0, pfx := 0, suffix := 0 }).len ∧
    (decode_body ctx st).frm_off =
      st.frm_off + (st.table.entries.getD st.key { len := 0, pfx := 0, suffix := 0 }).len ∧
    (decode_body ctx st).entry =
      (emit_walk ctx st.table WALK_FUEL
        (st.table.entries.getD st.key { len := 0, pfx := 0, suffix := 0 })
        st.frm_off st.frame).entry ∧
    (decode_body ctx st).emits = st.emits ++
      (emit_walk ctx st.table WALK_FUEL
        (st.table.entries.getD st.key { len := 0, pfx := 0, suffix := 0 })
        st.frm_off st.frame).emits ∧
    (decode_body ctx st).ok = ((st.ok && decide (st.key < st.table.nentries)) &&
      (emit_walk ctx st.table WALK_FUEL
        (st.table.entries.getD st.key { len := 0, pfx := 0, suffix := 0 })
        st.frm_off st.frame).ok) := by
  simp only [decode_body]
  split_ifs <;> exact ⟨rfl, rfl, rfl, rfl, rfl, rfl, rfl, rfl, rfl⟩

theorem decode_body_table (ctx : DecCtx) (st : DecSt) :
    (decode_body ctx st).table =
      (if st.key < st.table.nentries - 1 ∧ st.table_is_full = false then
        { nentries := st.table.nentries
          entries := st.table.entries.set (st.table.nentries - 1)
            { len := (st.table.entries.getD (st.table.nentries - 1)
                { len := 0, pfx := 0, suffix := 0 }).len
              pfx := (st.table.entries.getD (st.table.nentries - 1)
                { len := 0, pfx := 0, suffix := 0 }).pfx
              suffix := (emit_walk ctx st.table WALK_FUEL
                (st.table.entries.getD st.key { len := 0, pfx := 0, suffix := 0 })
                st.frm_off st.frame).entry.suffix } }
       else st.table) := by
  simp only [decode_body]
  split_ifs <;> rfl

theorem add_entry_length (t : gd_Table) (len pfx suffix : Nat) :
    (add_entry t len pfx suffix).1.entries.length = t.entries.length := by
  simp [add_entry]

theorem decode_dict_table_length (ctx : DecCtx) (st : DecSt) :
    (decode_dict ctx st).table.entries.length = st.table.entries.length := by
  by_cases h1 : st.key = ctx.clear
  · rw [decode_dict_entries_clear ctx st h1]
  · by_cases h2 : st.table_is_full = false
    · rw [(decode_dict_table3 ctx st h1 h2).1, add_entry_length]
    · have h2t : st.table_is_full = true := by
        cases hx : st.table_is_full
        · exact absurd hx h2
        · rfl
      rw [(decode_dict_full ctx st h1 h2t).1]

theorem decode_body_table_length (ctx : DecCtx) (st : DecSt) :
    (decode_body ctx st).table.entries.length = st.table.entries.length := by
  rw [decode_body_table]
  split_ifs <;> simp

theorem decode_step_table_length (ctx : DecCtx) (st : DecSt) :
    ((decode_step ctx st).1).table.entries.length = st.table.entries.length := by
  simp only [decode_step]
  split_ifs
  · exact decode_dict_table_length ctx st
  · exact decode_dict_table_length ctx st
  · show (decode_body ctx (decode_dict ctx st)).table.entries.length = _
    rw [decode_body_table_length, decode_dict_table_length]

theorem decode_loop_table_length (ctx : DecCtx) :
    ∀ fuel st st2, decode_loop ctx fuel st = some st2 →
      st2.table.entries.length = st.table.entries.length := by
  intro fuel
  induction fuel with
  | zero => intro st st2 h; simp [decode_loop] at h
  | succ fuel ih =>
    intro st st2 h
    simp only [decode_loop] at h
    split_ifs at h with hdone
    · cases h
      exact decode_step_table_length ctx st
    · rw [ih _ _ h, decode_step_table_length ctx st]

theorem decode_init_fp_data (gif : gd_GIF) (frame : List Nat) (bs : BufState) :
    bs.file_pos + 1 ≤ (decode_init gif frame bs).2.bs.file_pos ∧
    (decode_init gif frame bs).2.bs.fd.data = bs.fd.data := by
  constructor
  · calc bs.file_pos + 1 = (gif_buf_read1 bs).2.file_pos := (read1_fp bs).symm
      _ ≤ _ := get_key_fp_mono ((gif_buf_read1 bs).1 + 1)
        { sub_len := 0, shift := 0, byte := 0, bs := (gif_buf_read1 bs).2 }
  · calc (decode_init gif frame bs).2.bs.fd.data
        = (gif_buf_read1 bs).2.fd.data := get_key_data ((gif_buf_read1 bs).1 + 1)
          { sub_len := 0, shift := 0, byte := 0, bs := (gif_buf_read1 bs).2 }
      _ = bs.fd.data := read1_data bs

theorem read_image_data_gif (fuel : Nat) (gif : gd_GIF) (interlace : Bool)
    (frame : List Nat) (bs : BufState) (r : ImgRes)
    (h : read_image_data fuel gif interlace frame bs = some r) :
    r.gif.gce = gif.gce ∧ r.gif.width = gif.width ∧
    r.gif.anim_start = gif.anim_start ∧
    r.gif.processed_first_frame = true ∧
    r.gif.table.entries.length = gif.table.entries.length ∧
    r.bs.fd.data = bs.fd.data ∧ bs.file_pos + 1 ≤ r.bs.file_pos := by
  simp only [read_image_data] at h
  split at h
  · cases h
  · rename_i st hl
    cases h
    refine ⟨rfl, rfl, rfl, rfl, ?_, ?_, ?_⟩
    · show st.table.entries.length = _
      rw [decode_loop_table_length _ _ _ _ hl]
      calc (decode_init gif frame bs).2.table.entries.length
          = (reset_table gif.table (gif_buf_read1 bs).1).entries.length := rfl
        _ = gif.table.entries.length := reset_table_length _ _
    · show (gif_buf_read1 st.bs).2.fd.data = _
      rw [read1_data, decode_loop_data _ _ _ _ hl,
        (decode_init_fp_data gif frame bs).2]
    · show _ ≤ (gif_buf_read1 st.bs).2.file_pos
      rw [read1_fp]
      have h1 := (decode_init_fp_data gif frame bs).1
      have h2 := decode_loop_fp_mono _ _ _ _ hl
      omega

theorem read_image_gif (fuel : Nat) (gif : gd_GIF) (frame : List Nat) (bs : BufState)
    (r : ImgRes) (h : read_image fuel gif frame bs = some r) :
    r.gif.gce = gif.gce ∧ r.gif.width = gif.width ∧
    r.gif.anim_start = gif.anim_start ∧
    r.gif.processed_first_frame = true ∧
    r.gif.table.entries.length = gif.table.entries.length ∧
    r.bs.fd.data = bs.fd.data ∧ bs.file_pos ≤ r.bs.file_pos := by
  simp only [read_image] at h
  split_ifs at h
  · obtain ⟨g1, g2, g3, g4, g5, g6, g7⟩ := read_image_data_gif _ _ _ _ _ _ h
    refine ⟨by simpa using g1, by simpa using g2, by simpa using g3, g4,
      by simpa using g5, ?_, ?_⟩
    · rw [g6]
      show (read_palette_go _ _).2.fd.data = _
      rw [palette_go_data, read1_data, read16_data, read16_data, read16_data, read16_data]
    · refine le_trans ?_ (le_trans (Nat.le_succ _) g7)
      show bs.file_pos ≤ (read_palette_go _ _).2.file_pos
      rw [read_palette_go_fp, read1_fp, read16_fp, read16_fp, read16_fp, read16_fp]
      omega
  · obtain ⟨g1, g2, g3, g4, g5, g6, g7⟩ := read_image_data_gif _ _ _ _ _ _ h
    refine ⟨by simpa using g1, by simpa using g2, by simpa using g3, g4,
      by simpa using g5, ?_, ?_⟩
    · rw [g6]
      show (gif_buf_read1 _).2.fd.data = _
      rw [read1_data, read16_data, read16_data, read16_data, read16_data]
    · refine le_trans ?_ (le_trans (Nat.le_succ _) g7)
      show bs.file_pos ≤ (gif_buf_read1 _).2.file_pos
      rw [read1_fp, read16_fp, read16_fp, read16_fp, read16_fp]
      omega

theorem read_image_frame (fuel : Nat) (gif : gd_GIF) (frame : List Nat) (bs : BufState)
    (r : ImgRes) (h : read_image fuel gif frame bs = some r) :
    r.frame = r.emits.foldl
      (condWrite gif.processed_first_frame gif.gce.tindex) frame := by
  simp only [read_image] at h
  split_ifs at h
  · simpa using read_image_data_frame _ _ _ _ _ _ h
  · simpa using read_image_data_frame _ _ _ _ _ _ h

theorem gd_open_fields (d : List Nat) (gif : gd_GIF) (bs : BufState)
    (h : gd_open_gif d = some (gif, bs)) :
    bs.file_pos = gif.anim_start ∧ gif.processed_first_frame = false ∧
    gif.table = new_table ∧
    gif.gce = { delay := 0, tindex := 0, disposal := 0, input := 0, transparency := 0 } ∧
    bs.fd.data = d ∧ gif.table.entries.length = 4096 := by
  simp only [gd_open_gif] at h
  split_ifs at h
  rw [Option.some.injEq, Prod.mk.injEq] at h
  obtain ⟨hg, hb⟩ := h
  subst hb
  refine ⟨by rw [← hg], by rw [← hg], by rw [← hg], by rw [← hg], ?_,
    by rw [← hg]; show (List.replicate 4096 _).length = 4096; rw [List.length_replicate]⟩
  show (read_palette_go _ _).2.fd.data = d
  rw [palette_go_data, read1_data, read1_data, read1_data, read16_data, read16_data,
    readN_data, readN_data]
  rfl

theorem gd_open_inv (d : List Nat) (gif : gd_GIF) (bs : BufState)
    (h : gd_open_gif d = some (gif, bs)) (hle : bs.file_pos ≤ d.length) :
    Inv d bs := by
  simp only [gd_open_gif] at h
  split_ifs at h
  rw [Option.some.injEq, Prod.mk.injEq] at h
  obtain ⟨hg, hb⟩ := h
  subst hb
  set gsz := 2 ^ (((gif_buf_read1 (gif_buf_read16 (gif_buf_read16 (gif_buf_readN 3
    (gif_buf_readN 3 (initBufState d)).2).2).2).2).1 &&& 7) + 1) with hgsz
  have hfin : (read_palette_go gsz (gif_buf_read1 (gif_buf_read1 (gif_buf_read1
      (gif_buf_read16 (gif_buf_read16 (gif_buf_readN 3
      (gif_buf_readN 3 (initBufState d)).2).2).2).2).2).2).2).2.file_pos =
      13 + 3 * gsz := by
    rw [read_palette_go_fp, read1_fp, read1_fp, read1_fp, read16_fp, read16_fp,
      readN_fp, readN_fp]
    have h0 : (initBufState d).file_pos = 0 := rfl
    rw [h0]
  have hle2 : 13 + 3 * gsz ≤ d.length := le_trans (le_of_eq hfin.symm) hle
  have hI0 := inv_init d
  have e0 : (initBufState d).file_pos = 0 := rfl
  have hI1 := (readN_spec 3 d _ hI0 (by rw [e0]; omega)).2
  have f1 : (gif_buf_readN 3 (initBufState d)).2.file_pos = 3 := by rw [readN_fp, e0]
  have hI2 := (readN_spec 3 d _ hI1 (by rw [f1]; omega)).2
  have f2 : (gif_buf_readN 3 (gif_buf_readN 3 (initBufState d)).2).2.file_pos = 6 := by
    rw [readN_fp, f1]
  have hI3 := (read16_spec d _ hI2 (by rw [f2]; omega)).2
  have f3 : (gif_buf_read16 (gif_buf_readN 3
      (gif_buf_readN 3 (initBufState d)).2).2).2.file_pos = 8 := by
    rw [read16_fp, f2]
  have hI4 := (read16_spec d _ hI3 (by rw [f3]; omega)).2
  have f4 : (gif_buf_read16 (gif_buf_read16 (gif_buf_readN 3
      (gif_buf_readN 3 (initBufState d)).2).2).2).2.file_pos = 10 := by
    rw [read16_fp, f3]
  have hI5 := (read1_spec d _ hI4 (by rw [f4]; omega)).2
  have f5 : (gif_buf_read1 (gif_buf_read16 (gif_buf_read16 (gif_buf_readN 3
      (gif_buf_readN 3 (initBufState d)).2).2).2).2).2.file_pos = 11 := by
    rw [read1_fp, f4]
  have hI6 := (read1_spec d _ hI5 (by rw [f5]; omega)).2
  have f6 : (gif_buf_read1 (gif_buf_read1 (gif_buf_read16 (gif_buf_read16
      (gif_buf_readN 3 (gif_buf_readN 3 (initBufState d)).2).2).2).2).2).2.file_pos
      = 12 := by
    rw [read1_fp, f5]
  have hI7 := (read1_spec d _ hI6 (by rw [f6]; omega)).2
  have f7 : (gif_buf_read1 (gif_buf_read1 (gif_buf_read1 (gif_buf_read16
      (gif_buf_read16 (gif_buf_readN 3
      (gif_buf_readN 3 (initBufState d)).2).2).2).2).2).2).2.file_pos = 13 := by
    rw [read1_fp, f6]
  exact (read_palette_go_spec gsz d _ hI7 (by rw [f7]; omega)).2

theorem gd_get_frame_image (fuel : Nat) (gif : gd_GIF) (frame : List Nat)
    (bs : BufState) (hsep : (gif_buf_read1 bs).1 = 44) :
    gd_get_frame (fuel + 1) gif frame bs =
      (read_image fuel gif frame (gif_buf_read1 bs).2).map
        (fun rr => { code := 1, gif := rr.gif, frame := rr.frame, bs := rr.bs,
                     emits := rr.emits, trace := rr.trace, ok := rr.ok }) := by
  have h0 : ¬ (gif_buf_read1 bs).1 = 0 := by rw [hsep]; decide
  simp only [gd_get_frame]
  rw [if_neg h0, if_pos hsep]
  split
  · rename_i hri
    rw [hri]
    rfl
  · rename_i rr hri
    rw [hri, if_neg (by rw [read_image_code _ _ _ _ _ hri]; decide)]
    rfl

theorem emit_walk_sim (d : List Nat) (clear : Nat) (c1 c2 : DecCtx) (t1 t2 : gd_Table)
    (hC : CtxSim c1 c2) (hcl : c1.clear = clear) (hstop : c1.stop = clear + 1)
    (hT : TableSim clear t1 t2) :
    ∀ fuel entry frm_off f1 f2,
      (emit_walk c1 t1 fuel entry frm_off f1).ok = true →
      (emit_walk c2 t2 fuel entry frm_off f2).emits =
        (emit_walk c1 t1 fuel entry frm_off f1).emits ∧
      (emit_walk c2 t2 fuel entry frm_off f2).entry =
        (emit_walk c1 t1 fuel entry frm_off f1).entry ∧
      (emit_walk c2 t2 fuel entry frm_off f2).ok = true := by
  intro fuel
  induction fuel with
  | zero =>
    intro entry frm_off f1 f2 hok
    simp [emit_walk] at hok
  | succ fuel ih =>
    intro entry frm_off f1 f2 hok
    by_cases hp : entry.pfx = 4095
    · simp only [emit_walk]
      rw [if_pos hp, if_pos hp]
      refine ⟨?_, rfl, rfl⟩
      rw [emitDest_ctxsim hC]
    · simp only [emit_walk] at hok
      rw [if_neg hp] at hok
      simp only [emit_walk]
      rw [if_neg hp, if_neg hp]
      rw [Bool.and_eq_true] at hok
      obtain ⟨hok1, hrok⟩ := hok
      obtain ⟨hlt, hne1, hne2⟩ := of_decide_eq_true hok1
      have hent : t2.entries.getD entry.pfx { len := 0, pfx := 0, suffix := 0 } =
          t1.entries.getD entry.pfx { len := 0, pfx := 0, suffix := 0 } :=
        (hT.2.2 entry.pfx hlt (by rw [← hcl]; exact hne1)
          (by rw [← hstop]; exact hne2)).symm
      obtain ⟨he, hen, ho⟩ := ih
        (t1.entries.getD entry.pfx { len := 0, pfx := 0, suffix := 0 }) frm_off
        (condWrite c1.pf c1.tindex f1 (frm_off + entry.len - 1,
          emitDest c1 (frm_off + entry.len - 1), entry.suffix))
        (condWrite c2.pf c2.tindex f2 (frm_off + entry.len - 1,
          emitDest c2 (frm_off + entry.len - 1), entry.suffix)) hrok
      rw [hent]
      refine ⟨?_, hen, ?_⟩
      · rw [he, emitDest_ctxsim hC]
      · rw [Bool.and_eq_true]
        refine ⟨?_, ho⟩
        apply decide_eq_true
        exact ⟨hT.1 ▸ hlt, hC.1 ▸ hne1, hC.2.1 ▸ hne2⟩

theorem decode_dict_sim (d : List Nat) (clear : Nat) (c1 c2 : DecCtx) (s1 s2 : DecSt)
    (hC : CtxSim c1 c2) (hcl : c1.clear = clear)
    (hD : DSim d clear s1 s2)
    (hiks : 2 ^ (s1.init_key_size - 1) = clear)
    (hge : clear + 2 ≤ s1.table.nentries)
    (hfp : (decode_dict c1 s1).bs.file_pos ≤ d.length) :
    DSim d clear (decode_dict c1 s1) (decode_dict c2 s2) ∧
    clear + 2 ≤ (decode_dict c1 s1).table.nentries := by
  obtain ⟨hSim, hT, e_ks, e_iks, e_sub, e_sh, e_by, e_full, e_ret, e_str, e_ent, e_frm,
    e_key, e_em, e_ok⟩ := hD
  obtain ⟨r1_ks, r1_key, r1_sub, r1_sh, r1_by, r1_bs⟩ := decode_dict_reader c1 s1
  obtain ⟨r2_ks, r2_key, r2_sub, r2_sh, r2_by, r2_bs⟩ := decode_dict_reader c2 s2
  obtain ⟨g1_str, g1_ent, g1_frm, g1_em, g1_ok, _, g1_iks⟩ := decode_dict_ghost c1 s1
  obtain ⟨g2_str, g2_ent, g2_frm, g2_em, g2_ok, _, g2_iks⟩ := decode_dict_ghost c2 s2
  have hw : (if s2.key = c2.clear then s2.init_key_size else s2.key_size) =
      (if s1.key = c1.clear then s1.init_key_size else s1.key_size) := by
    rw [e_key, hC.1, e_iks, e_ks]
  obtain ⟨k_val, k_sub, k_sh, k_by, k_S⟩ := get_key_sim d
    (if s1.key = c1.clear then s1.init_key_size else s1.key_size)
    { sub_len := s1.sub_len, shift := s1.shift, byte := s1.byte, bs := s1.bs }
    { sub_len := s2.sub_len, shift := s2.shift, byte := s2.byte, bs := s2.bs }
    e_sub e_sh e_by hSim (by rw [← r1_bs]; exact hfp)
  have cSim : Sim d (decode_dict c1 s1).bs (decode_dict c2 s2).bs := by
    rw [r1_bs, r2_bs, hw]
    exact k_S
  have cks : (decode_dict c1 s1).key_size = (decode_dict c2 s2).key_size := by
    rw [r1_ks, r2_ks, hw]
  have ciks : (decode_dict c1 s1).init_key_size = (decode_dict c2 s2).init_key_size := by
    rw [g1_iks, g2_iks]
    exact e_iks
  have csub : (decode_dict c1 s1).sub_len = (decode_dict c2 s2).sub_len := by
    rw [r1_sub, r2_sub, hw]
    exact k_sub
  have csh : (decode_dict c1 s1).shift = (decode_dict c2 s2).shift := by
    rw [r1_sh, r2_sh, hw]
    exact k_sh
  have cby : (decode_dict c1 s1).byte = (decode_dict c2 s2).byte := by
    rw [r1_by, r2_by, hw]
    exact k_by
  have ckey : (decode_dict c1 s1).key = (decode_dict c2 s2).key := by
    rw [r1_key, r2_key, hw]
    exact k_val
  have cstr : (decode_dict c1 s1).str_len = (decode_dict c2 s2).str_len := by
    rw [g1_str, g2_str]
    exact e_str
  have cent : (decode_dict c1 s1).entry = (decode_dict c2 s2).entry := by
    rw [g1_ent, g2_ent]
    exact e_ent
  have cfrm : (decode_dict c1 s1).frm_off = (decode_dict c2 s2).frm_off := by
    rw [g1_frm, g2_frm]
    exact e_frm
  have cem : (decode_dict c1 s1).emits = (decode_dict c2 s2).emits := by
    rw [g1_em, g2_em]
    exact e_em
  have cok : (decode_dict c1 s1).ok = (decode_dict c2 s2).ok := by
    rw [g1_ok, g2_ok]
    exact e_ok
  by_cases hk : s1.key = c1.clear
  · have hk2 : s2.key = c2.clear := by
      rw [← e_key, ← hC.1]
      exact hk
    have tbl : TableSim clear (decode_dict c1 s1).table (decode_dict c2 s2).table := by
      refine ⟨?_, ?_, ?_⟩
      · rw [(decode_dict_clear c1 s1 hk).1, (decode_dict_clear c2 s2 hk2).1, e_iks]
      · rw [decode_dict_table_length, decode_dict_table_length]
        exact hT.2.1
      · intro k hklt hkc hkc1
        rw [(decode_dict_clear c1 s1 hk).1, hiks] at hklt
        rw [decode_dict_entries_clear c1 s1 hk, decode_dict_entries_clear c2 s2 hk2]
        exact hT.2.2 k (by omega) hkc hkc1
    have cfull : (decode_dict c1 s1).table_is_full = (decode_dict c2 s2).table_is_full := by
      rw [(decode_dict_clear c1 s1 hk).2.2.1, (decode_dict_clear c2 s2 hk2).2.2.1]
    have cret : (decode_dict c1 s1).ret = (decode_dict c2 s2).ret := by
      rw [(decode_dict_clear c1 s1 hk).2.2.2.1, (decode_dict_clear c2 s2 hk2).2.2.2.1]
      exact e_ret
    refine ⟨⟨cSim, tbl, cks, ciks, csub, csh, cby, cfull, cret, cstr, cent, cfrm,
      ckey, cem, cok⟩, ?_⟩
    rw [(decode_dict_clear c1 s1 hk).1, hiks]
  · have hk2 : s2.key ≠ c2.clear := by
      rw [← e_key, ← hC.1]
      exact hk
    by_cases hf : s1.table_is_full = false
    · have hf2 : s2.table_is_full = false := by
        rw [← e_full]
        exact hf
      obtain ⟨t1_tab, t1_ret, t1_full⟩ := decode_dict_table3 c1 s1 hk hf
      obtain ⟨t2_tab, t2_ret, t2_full⟩ := decode_dict_table3 c2 s2 hk2 hf2
      have hargs : add_entry s2.table (s2.str_len + 1) s2.key s2.entry.suffix =
          add_entry s2.table (s1.str_len + 1) s1.key s1.entry.suffix := by
        rw [e_str, e_key, e_ent]
      obtain ⟨hTadd, hflag, hcount⟩ := tablesim_add clear s1.table s2.table hT
        (s1.str_len + 1) s1.key s1.entry.suffix
      have tbl : TableSim clear (decode_dict c1 s1).table (decode_dict c2 s2).table := by
        rw [t1_tab, t2_tab, hargs]
        exact hTadd
      have cret : (decode_dict c1 s1).ret = (decode_dict c2 s2).ret := by
        rw [t1_ret, t2_ret, hargs, ← hT.1, hflag]
      have cfull : (decode_dict c1 s1).table_is_full = (decode_dict c2 s2).table_is_full := by
        rw [t1_full, t2_full, ← hT.1, e_full]
      refine ⟨⟨cSim, tbl, cks, ciks, csub, csh, cby, cfull, cret, cstr, cent, cfrm,
        ckey, cem, cok⟩, ?_⟩
      rw [t1_tab]
      have hn : (add_entry s1.table (s1.str_len + 1) s1.key s1.entry.suffix).1.nentries =
          s1.table.nentries + 1 := rfl
      omega
    · have hf1 : s1.table_is_full = true := by
        cases hx : s1.table_is_full
        · exact absurd hx hf
        · rfl
      have hf2 : s2.table_is_full = true := by
        rw [← e_full]
        exact hf1
      have f1 := decode_dict_full c1 s1 hk hf1
      have f2 := decode_dict_full c2 s2 hk2 hf2
      have tbl : TableSim clear (decode_dict c1 s1).table (decode_dict c2 s2).table := by
        rw [f1.1, f2.1]
        exact hT
      have cret : (decode_dict c1 s1).ret = (decode_dict c2 s2).ret := by
        rw [f1.2.2.2.1, f2.2.2.2.1]
        exact e_ret
      have cfull : (decode_dict c1 s1).table_is_full = (decode_dict c2 s2).table_is_full := by
        rw [f1.2.2.1, f2.2.2.1]
      refine ⟨⟨cSim, tbl, cks, ciks, csub, csh, cby, cfull, cret, cstr, cent, cfrm,
        ckey, cem, cok⟩, ?_⟩
      rw [f1.1]
      exact hge

theorem decode_body_sim (d : List Nat) (clear : Nat) (c1 c2 : DecCtx) (s1 s2 : DecSt)
    (hC : CtxSim c1 c2) (hcl : c1.clear = clear) (hstop : c1.stop = clear + 1)
    (hD : DSim d clear s1 s2)
    (hk1 : s1.key ≠ c1.clear) (hk2 : s1.key ≠ c1.stop)
    (hok : (decode_body c1 s1).ok = true) :
    DSim d clear (decode_body c1 s1) (decode_body c2 s2) := by
  obtain ⟨hSim, hT, e_ks, e_iks, e_sub, e_sh, e_by, e_full, e_ret, e_str, e_ent, e_frm,
    e_key, e_em, e_ok⟩ := hD
  obtain ⟨a1_key, a1_sub, a1_sh, a1_by, a1_str, a1_frm, a1_ent, a1_em, a1_ok⟩ :=
    decode_body_all c1 s1
  obtain ⟨a2_key, a2_sub, a2_sh, a2_by, a2_str, a2_frm, a2_ent, a2_em, a2_ok⟩ :=
    decode_body_all c2 s2
  rw [a1_ok, Bool.and_eq_true, Bool.and_eq_true] at hok
  obtain ⟨⟨hok0, hklt⟩, hwok⟩ := hok
  have hklt' := of_decide_eq_true hklt
  have hent0 : s2.table.entries.getD s2.key { len := 0, pfx := 0, suffix := 0 } =
      s1.table.entries.getD s1.key { len := 0, pfx := 0, suffix := 0 } := by
    rw [← e_key]
    exact (hT.2.2 s1.key hklt' (by rw [← hcl]; exact hk1)
      (by rw [← hstop]; exact hk2)).symm
  obtain ⟨w_em, w_ent, w_ok⟩ := emit_walk_sim d clear c1 c2 s1.table s2.table hC hcl
    hstop hT WALK_FUEL
    (s1.table.entries.getD s1.key { len := 0, pfx := 0, suffix := 0 })
    s1.frm_off s1.frame s2.frame hwok
  refine ⟨?_, ?_, ?_, ?_, ?_, ?_, ?_, ?_, ?_, ?_, ?_, ?_, ?_, ?_, ?_⟩
  · rw [decode_body_bs, decode_body_bs]
    exact hSim
  · rw [decode_body_table, decode_body_table]
    by_cases hpatch : s1.key < s1.table.nentries - 1 ∧ s1.table_is_full = false
    · have hpatch2 : s2.key < s2.table.nentries - 1 ∧ s2.table_is_full = false := by
        rw [← e_key, ← hT.1, ← e_full]
        exact hpatch
      rw [if_pos hpatch, if_pos hpatch2]
      have hi : s1.table.nentries - 1 < s1.table.nentries := by omega
      have hidx : s2.table.nentries - 1 = s1.table.nentries - 1 := by rw [hT.1]
      rw [hidx, hent0, ← e_frm, w_ent]
      exact tablesim_patch clear s1.table s2.table hT (s1.table.nentries - 1) hi
        ((emit_walk c1 s1.table WALK_FUEL
          (s1.table.entries.getD s1.key { len := 0, pfx := 0, suffix := 0 })
          s1.frm_off s1.frame).entry.suffix)
    · have hpatch2 : ¬ (s2.key < s2.table.nentries - 1 ∧ s2.table_is_full = false) := by
        rw [← e_key, ← hT.1, ← e_full]
        exact hpatch
      rw [if_neg hpatch, if_neg hpatch2]
      exact hT
  · rw [(decode_body_fields c1 s1).2.2.2.2.2, (decode_body_fields c2 s2).2.2.2.2.2,
      e_ret, e_ks]
  · rw [(decode_body_fields c1 s1).2.2.2.1, (decode_body_fields c2 s2).2.2.2.1]
    exact e_iks
  · rw [a1_sub, a2_sub]
    exact e_sub
  · rw [a1_sh, a2_sh]
    exact e_sh
  · rw [a1_by, a2_by]
    exact e_by
  · rw [(decode_body_fields c1 s1).2.1, (decode_body_fields c2 s2).2.1]
    exact e_full
  · rw [(decode_body_fields c1 s1).2.2.1, (decode_body_fields c2 s2).2.2.1]
    exact e_ret
  · rw [a1_str, a2_str, hent0]
  · rw [a1_ent, a2_ent, hent0, ← e_frm, w_ent]
  · rw [a1_frm, a2_frm, hent0, ← e_frm]
  · rw [a1_key, a2_key]
    exact e_key
  · rw [a1_em, a2_em, ← e_em, hent0, ← e_frm, w_em]
  · rw [a1_ok, a2_ok, ← e_ok, hent0, ← e_key, ← hT.1, ← e_frm, w_ok, hwok]

theorem decode_step_sim (d : List Nat) (clear : Nat) (c1 c2 : DecCtx) (s1 s2 : DecSt)
    (hC : CtxSim c1 c2) (hcl : c1.clear = clear) (hstop : c1.stop = clear + 1)
    (hD : DSim d clear s1 s2)
    (hiks : 2 ^ (s1.init_key_size - 1) = clear)
    (hge : clear + 2 ≤ s1.table.nentries)
    (hok : ((decode_step c1 s1).1).ok = true)
    (hfp : ((decode_step c1 s1).1).bs.file_pos ≤ d.length) :
    DSim d clear ((decode_step c1 s1).1) ((decode_step c2 s2).1) ∧
    (decode_step c1 s1).2 = (decode_step c2 s2).2 ∧
    clear + 2 ≤ ((decode_step c1 s1).1).table.nentries ∧
    ((decode_step c1 s1).1).init_key_size = s1.init_key_size := by
  have hfp2 : (decode_dict c1 s1).bs.file_pos ≤ d.length := by
    rw [← decode_step_bs]
    exact hfp
  obtain ⟨hDd, hged⟩ := decode_dict_sim d clear c1 c2 s1 s2 hC hcl hD hiks hge hfp2
  obtain ⟨dSim, dT, dks, diks, dsub, dsh, dby, dfull, dret, dstr, dent, dfrm, dkey,
    dem, dok⟩ := hDd
  have hDd2 : DSim d clear (decode_dict c1 s1) (decode_dict c2 s2) :=
    ⟨dSim, dT, dks, diks, dsub, dsh, dby, dfull, dret, dstr, dent, dfrm, dkey, dem, dok⟩
  have hiksd : (decode_dict c1 s1).init_key_size = s1.init_key_size :=
    (decode_dict_ghost c1 s1).2.2.2.2.2.2
  by_cases hk : (decode_dict c1 s1).key = c1.clear
  · have hk2 : (decode_dict c2 s2).key = c2.clear := by
      rw [← dkey, ← hC.1]
      exact hk
    simp only [decode_step]
    rw [if_pos hk, if_pos hk2]
    exact ⟨hDd2, rfl, hged, hiksd⟩
  · have hk2 : ¬ (decode_dict c2 s2).key = c2.clear := by
      rw [← dkey, ← hC.1]
      exact hk
    by_cases hs : (decode_dict c1 s1).key = c1.stop
    · have hs2 : (decode_dict c2 s2).key = c2.stop := by
        rw [← dkey, ← hC.2.1]
        exact hs
      simp only [decode_step]
      rw [if_neg hk, if_neg hk2, if_pos hs, if_pos hs2]
      exact ⟨hDd2, rfl, hged, hiksd⟩
    · have hs2 : ¬ (decode_dict c2 s2).key = c2.stop := by
        rw [← dkey, ← hC.2.1]
        exact hs
      have hokb : (decode_body c1 (decode_dict c1 s1)).ok = true := by
        have h2 := hok
        simp only [decode_step] at h2
        rw [if_neg hk, if_neg hs] at h2
        exact h2
      have hbody := decode_body_sim d clear c1 c2 _ _ hC hcl hstop hDd2 hk hs hokb
      simp only [decode_step]
      rw [if_neg hk, if_neg hk2, if_neg hs, if_neg hs2]
      refine ⟨hbody, rfl, ?_, ?_⟩
      · rw [show ((decode_body c1 (decode_dict c1 s1), false)).1 =
            decode_body c1 (decode_dict c1 s1) from rfl,
          (decode_body_fields c1 (decode_dict c1 s1)).1]
        exact hged
      · rw [show ((decode_body c1 (decode_dict c1 s1), false)).1 =
            decode_body c1 (decode_dict c1 s1) from rfl,
          (decode_body_fields c1 (decode_dict c1 s1)).2.2.2.1, hiksd]

theorem decode_loop_sim (d : List Nat) (clear : Nat) (c1 c2 : DecCtx)
    (hC : CtxSim c1 c2) (hcl : c1.clear = clear) (hstop : c1.stop = clear + 1) :
    ∀ fuel s1 s2 st1, DSim d clear s1 s2 →
      2 ^ (s1.init_key_size - 1) = clear →
      clear + 2 ≤ s1.table.nentries →
      decode_loop c1 fuel s1 = some st1 → st1.ok = true →
      st1.bs.file_pos ≤ d.length →
      ∃ st2, decode_loop c2 fuel s2 = some st2 ∧ DSim d clear st1 st2 := by
  intro fuel
  induction fuel with
  | zero =>
    intro s1 s2 st1 _ _ _ h _ _
    simp [decode_loop] at h
  | succ fuel ih =>
    intro s1 s2 st1 hD hiks hge h hok hfp
    have h0 := h
    simp only [decode_loop] at h ⊢
    split_ifs at h with hdone
    · cases h
      obtain ⟨hDs, hflag, _, _⟩ := decode_step_sim d clear c1 c2 s1 s2 hC hcl hstop
        hD hiks hge hok hfp
      refine ⟨(decode_step c2 s2).1, ?_, hDs⟩
      rw [if_pos (by rw [← hflag]; exact hdone)]
    · have hsok : ((decode_step c1 s1).1).ok = true :=
        decode_loop_step_ok c1 fuel s1 st1 h0 hok (by
          cases hx : (decode_step c1 s1).2
          · rfl
          · exact absurd hx hdone)
      have hsfp : ((decode_step c1 s1).1).bs.file_pos ≤ d.length :=
        le_trans (decode_loop_fp_mono c1 fuel _ _ h) hfp
      obtain ⟨hDs, hflag, hge2, hinit⟩ := decode_step_sim d clear c1 c2 s1 s2 hC hcl
        hstop hD hiks hge hsok hsfp
      obtain ⟨st2, hl2, hD2⟩ := ih _ _ _ hDs (by rw [hinit]; exact hiks) hge2 h hok hfp
      refine ⟨st2, ?_, hD2⟩
      rw [if_neg (by rw [← hflag]; exact hdone)]
      exact hl2

theorem read_image_data_sim (d : List Nat) (fuel : Nat) (gif1 gif2 : gd_GIF)
    (interlace : Bool) (f1 f2 : List Nat) (bs1 bs2 : BufState) (r1 : ImgRes)
    (hti : gif2.gce.tindex = gif1.gce.tindex)
    (hw : gif2.width = gif1.width)
    (hfx : gif2.fx = gif1.fx) (hfy : gif2.fy = gif1.fy)
    (hfw : gif2.fw = gif1.fw) (hfh : gif2.fh = gif1.fh)
    (hlen : gif1.table.entries.length = gif2.table.entries.length)
    (hS : Sim d bs1 bs2)
    (h1 : read_image_data fuel gif1 interlace f1 bs1 = some r1)
    (hok : r1.ok = true) (hfp : r1.bs.file_pos ≤ d.length) :
    ∃ r2, read_image_data fuel gif2 interlace f2 bs2 = some r2 ∧ r2.emits = r1.emits := by
  simp only [read_image_data] at h1 ⊢
  split at h1
  · cases h1
  · rename_i st1 hl1
    cases h1
    have hok1 : st1.ok = true := hok
    have hfp0 : (gif_buf_read1 st1.bs).2.file_pos ≤ d.length := hfp
    rw [read1_fp] at hfp0
    have hfp1 : st1.bs.file_pos ≤ d.length := by omega
    have hfpinit : (decode_init gif1 f1 bs1).2.bs.file_pos ≤ d.length :=
      le_trans (decode_loop_fp_mono _ fuel _ _ hl1) hfp1
    have hinit1 := (decode_init_fp_data gif1 f1 bs1).1
    have hbs1 : bs1.file_pos < d.length := by omega
    obtain ⟨hm, hS1⟩ := read1_sim d bs1 bs2 hS hbs1
    have hky : get_key ((gif_buf_read1 bs2).1 + 1)
        { sub_len := 0, shift := 0, byte := 0, bs := (gif_buf_read1 bs2).2 } =
        get_key ((gif_buf_read1 bs1).1 + 1)
        { sub_len := 0, shift := 0, byte := 0, bs := (gif_buf_read1 bs2).2 } := by
      rw [hm]
    obtain ⟨gk_val, gk_sub, gk_sh, gk_by, gk_S⟩ := get_key_sim d
      ((gif_buf_read1 bs1).1 + 1)
      { sub_len := 0, shift := 0, byte := 0, bs := (gif_buf_read1 bs1).2 }
      { sub_len := 0, shift := 0, byte := 0, bs := (gif_buf_read1 bs2).2 }
      rfl rfl rfl hS1 hfpinit
    have hD : DSim d (1 <<< (gif_buf_read1 bs1).1)
        (decode_init gif1 f1 bs1).2 (decode_init gif2 f2 bs2).2 := by
      refine ⟨?_, ?_, ?_, ?_, ?_, ?_, ?_, rfl, rfl, rfl, rfl, rfl, ?_, rfl, rfl⟩
      · show Sim d
          (get_key ((gif_buf_read1 bs1).1 + 1)
            { sub_len := 0, shift := 0, byte := 0, bs := (gif_buf_read1 bs1).2 }).2.bs
          (get_key ((gif_buf_read1 bs2).1 + 1)
            { sub_len := 0, shift := 0, byte := 0, bs := (gif_buf_read1 bs2).2 }).2.bs
        rw [hky]
        exact gk_S
      · show TableSim (1 <<< (gif_buf_read1 bs1).1)
          (reset_table gif1.table (gif_buf_read1 bs1).1)
          (reset_table gif2.table (gif_buf_read1 bs2).1)
        rw [← hm, Nat.shiftLeft_eq, one_mul]
        exact tablesim_reset _ _ _ hlen
      · show (gif_buf_read1 bs1).1 + 1 = (gif_buf_read1 bs2).1 + 1
        rw [hm]
      · show (gif_buf_read1 bs1).1 + 1 = (gif_buf_read1 bs2).1 + 1
        rw [hm]
      · show (get_key ((gif_buf_read1 bs1).1 + 1)
            { sub_len := 0, shift := 0, byte := 0, bs := (gif_buf_read1 bs1).2 }).2.sub_len =
          (get_key ((gif_buf_read1 bs2).1 + 1)
            { sub_len := 0, shift := 0, byte := 0, bs := (gif_buf_read1 bs2).2 }).2.sub_len
        rw [hky]
        exact gk_sub
      · show (get_key ((gif_buf_read1 bs1).1 + 1)
            { sub_len := 0, shift := 0, byte := 0, bs := (gif_buf_read1 bs1).2 }).2.shift =
          (get_key ((gif_buf_read1 bs2).1 + 1)
            { sub_len := 0, shift := 0, byte := 0, bs := (gif_buf_read1 bs2).2 }).2.shift
        rw [hky]
        exact gk_sh
      · show (get_key ((gif_buf_read1 bs1).1 + 1)
            { sub_len := 0, shift := 0, byte := 0, bs := (gif_buf_read1 bs1).2 }).2.byte =
          (get_key ((gif_buf_read1 bs2).1 + 1)
            { sub_len := 0, shift := 0, byte := 0, bs := (gif_buf_read1 bs2).2 }).2.byte
        rw [hky]
        exact gk_by
      · show (get_key ((gif_buf_read1 bs1).1 + 1)
            { sub_len := 0, shift := 0, byte := 0, bs := (gif_buf_read1 bs1).2 }).1 =
          (get_key ((gif_buf_read1 bs2).1 + 1)
            { sub_len := 0, shift := 0, byte := 0, bs := (gif_buf_read1 bs2).2 }).1
        rw [hky]
        exact gk_val
    have hC : CtxSim
        { clear := (decode_init gif1 f1 bs1).1.clear
          stop := (decode_init gif1 f1 bs1).1.stop
          tindex := (decode_init gif1 f1 bs1).1.tindex
          pf := (decode_init gif1 f1 bs1).1.pf
          interlace := interlace
          fx := (decode_init gif1 f1 bs1).1.fx
          fy := (decode_init gif1 f1 bs1).1.fy
          fw := (decode_init gif1 f1 bs1).1.fw
          fh := (decode_init gif1 f1 bs1).1.fh
          width := (decode_init gif1 f1 bs1).1.width }
        { clear := (decode_init gif2 f2 bs2).1.clear
          stop := (decode_init gif2 f2 bs2).1.stop
          tindex := (decode_init gif2 f2 bs2).1.tindex
          pf := (decode_init gif2 f2 bs2).1.pf
          interlace := interlace
          fx := (decode_init gif2 f2 bs2).1.fx
          fy := (decode_init gif2 f2 bs2).1.fy
          fw := (decode_init gif2 f2 bs2).1.fw
          fh := (decode_init gif2 f2 bs2).1.fh
          width := (decode_init gif2 f2 bs2).1.width } := by
      refine ⟨?_, ?_, ?_, rfl, ?_, ?_, ?_, ?_, ?_⟩
      · show 1 <<< (gif_buf_read1 bs1).1 = 1 <<< (gif_buf_read1 bs2).1
        rw [hm]
      · show 1 <<< (gif_buf_read1 bs1).1 + 1 = 1 <<< (gif_buf_read1 bs2).1 + 1
        rw [hm]
      · show gif1.gce.tindex = gif2.gce.tindex
        exact hti.symm
      · show gif1.fx = gif2.fx
        exact hfx.symm
      · show gif1.fy = gif2.fy
        exact hfy.symm
      · show gif1.fw = gif2.fw
        exact hfw.symm
      · show gif1.fh = gif2.fh
        exact hfh.symm
      · show gif1.width = gif2.width
        exact hw.symm
    obtain ⟨st2, hl2, hD2⟩ := decode_loop_sim d (1 <<< (gif_buf_read1 bs1).1) _ _
      hC rfl rfl fuel (decode_init gif1 f1 bs1).2 (decode_init gif2 f2 bs2).2 st1 hD
      (by
        show 2 ^ ((gif_buf_read1 bs1).1 + 1 - 1) = 1 <<< (gif_buf_read1 bs1).1
        rw [Nat.add_sub_cancel, Nat.shiftLeft_eq, one_mul])
      (by
        show 1 <<< (gif_buf_read1 bs1).1 + 2 ≤ 2 ^ (gif_buf_read1 bs1).1 + 2
        rw [Nat.shiftLeft_eq, one_mul])
      hl1 hok1 hfp1
    obtain ⟨_, _, _, _, _, _, _, _, _, _, _, _, _, hEm, hOk⟩ := hD2
    refine ⟨{ code := 0
              gif := { gif2 with table := st2.table, processed_first_frame := true }
              frame := st2.frame, bs := (gif_buf_read1 st2.bs).2
              emits := st2.emits, trace := st2.trace, ok := st2.ok }, ?_, ?_⟩
    · rw [hl2]
    · exact hEm.symm

theorem read_image_sim (d : List Nat) (fuel : Nat) (gif1 gif2 : gd_GIF)
    (f1 f2 : List Nat) (bs1 bs2 : BufState) (r1 : ImgRes)
    (hti : gif2.gce.tindex = gif1.gce.tindex)
    (hw : gif2.width = gif1.width)
    (hlen : gif1.table.entries.length = gif2.table.entries.length)
    (hS : Sim d bs1 bs2)
    (h1 : read_image fuel gif1 f1 bs1 = some r1)
    (hok : r1.ok = true) (hfp : r1.bs.file_pos ≤ d.length) :
    ∃ r2, read_image fuel gif2 f2 bs2 = some r2 ∧ r2.emits = r1.emits := by
  simp only [read_image] at h1 ⊢
  split_ifs at h1 with hpal
  · obtain ⟨_, _, _, _, _, _, g7⟩ := read_image_data_gif _ _ _ _ _ _ h1
    have hbig : bs1.file_pos + 9 + 3 * (2 ^ (((gif_buf_read1 (gif_buf_read16
        (gif_buf_read16 (gif_buf_read16 (gif_buf_read16 bs1).2).2).2).2).1 &&& 7) + 1))
        ≤ d.length := by
      refine le_trans ?_ (le_trans (le_trans (Nat.le_succ _) g7) hfp)
      show _ ≤ (read_palette_go _ _).2.file_pos
      rw [read_palette_go_fp, read1_fp, read16_fp, read16_fp, read16_fp, read16_fp]
    obtain ⟨v16a, hSa⟩ := read16_sim d bs1 bs2 hS (by omega)
    obtain ⟨v16b, hSb⟩ := read16_sim d _ _ hSa (by rw [read16_fp]; omega)
    obtain ⟨v16c, hSc⟩ := read16_sim d _ _ hSb (by rw [read16_fp, read16_fp]; omega)
    obtain ⟨v16d, hSd⟩ := read16_sim d _ _ hSc
      (by rw [read16_fp, read16_fp, read16_fp]; omega)
    obtain ⟨v1e, hSe⟩ := read1_sim d _ _ hSd
      (by rw [read16_fp, read16_fp, read16_fp, read16_fp]; omega)
    rw [← v1e]
    rw [if_pos hpal]
    have hSpal := palette_go_sim d
      (2 ^ (((gif_buf_read1 (gif_buf_read16 (gif_buf_read16 (gif_buf_read16
        (gif_buf_read16 bs1).2).2).2).2).1 &&& 7) + 1)) _ _ hSe
      (by rw [read1_fp, read16_fp, read16_fp, read16_fp, read16_fp]; omega)
    obtain ⟨r2, hr2, hem⟩ := read_image_data_sim d fuel
      { gif1 with
        fx := (gif_buf_read16 bs1).1
        fy := (gif_buf_read16 (gif_buf_read16 bs1).2).1
        fw := (gif_buf_read16 (gif_buf_read16 (gif_buf_read16 bs1).2).2).1
        fh := (gif_buf_read16 (gif_buf_read16 (gif_buf_read16
          (gif_buf_read16 bs1).2).2).2).1
        lct := (read_palette (gif_buf_read1 (gif_buf_read16 (gif_buf_read16
          (gif_buf_read16 (gif_buf_read16 bs1).2).2).2).2).2
          (2 ^ (((gif_buf_read1 (gif_buf_read16 (gif_buf_read16 (gif_buf_read16
            (gif_buf_read16 bs1).2).2).2).2).1 &&& 7) + 1))).1
        paletteLocal := true }
      { gif2 with
        fx := (gif_buf_read16 bs2).1
        fy := (gif_buf_read16 (gif_buf_read16 bs2).2).1
        fw := (gif_buf_read16 (gif_buf_read16 (gif_buf_read16 bs2).2).2).1
        fh := (gif_buf_read16 (gif_buf_read16 (gif_buf_read16
          (gif_buf_read16 bs2).2).2).2).1
        lct := (read_palette (gif_buf_read1 (gif_buf_read16 (gif_buf_read16
          (gif_buf_read16 (gif_buf_read16 bs2).2).2).2).2).2
          (2 ^ (((gif_buf_read1 (gif_buf_read16 (gif_buf_read16 (gif_buf_read16
            (gif_buf_read16 bs1).2).2).2).2).1 &&& 7) + 1))).1
        paletteLocal := true }
      _ f1 f2 _ _ r1 hti hw v16a.symm v16b.symm v16c.symm v16d.symm hlen hSpal
      h1 hok hfp
    exact ⟨r2, hr2, hem⟩
  · obtain ⟨_, _, _, _, _, _, g7⟩ := read_image_data_gif _ _ _ _ _ _ h1
    have hsmall : bs1.file_pos + 9 ≤ d.length := by
      refine le_trans ?_ (le_trans (le_trans (Nat.le_succ _) g7) hfp)
      show _ ≤ (gif_buf_read1 _).2.file_pos
      rw [read1_fp, read16_fp, read16_fp, read16_fp, read16_fp]
    obtain ⟨v16a, hSa⟩ := read16_sim d bs1 bs2 hS (by omega)
    obtain ⟨v16b, hSb⟩ := read16_sim d _ _ hSa (by rw [read16_fp]; omega)
    obtain ⟨v16c, hSc⟩ := read16_sim d _ _ hSb (by rw [read16_fp, read16_fp]; omega)
    obtain ⟨v16d, hSd⟩ := read16_sim d _ _ hSc
      (by rw [read16_fp, read16_fp, read16_fp]; omega)
    obtain ⟨v1e, hSe⟩ := read1_sim d _ _ hSd
      (by rw [read16_fp, read16_fp, read16_fp, read16_fp]; omega)
    rw [← v1e]
    rw [if_neg hpal]
    obtain ⟨r2, hr2, hem⟩ := read_image_data_sim d fuel
      { gif1 with
        fx := (gif_buf_read16 bs1).1
        fy := (gif_buf_read16 (gif_buf_read16 bs1).2).1
        fw := (gif_buf_read16 (gif_buf_read16 (gif_buf_read16 bs1).2).2).1
        fh := (gif_buf_read16 (gif_buf_read16 (gif_buf_read16
          (gif_buf_read16 bs1).2).2).2).1
        paletteLocal := false }
      { gif2 with
        fx := (gif_buf_read16 bs2).1
        fy := (gif_buf_read16 (gif_buf_read16 bs2).2).1
        fw := (gif_buf_read16 (gif_buf_read16 (gif_buf_read16 bs2).2).2).1
        fh := (gif_buf_read16 (gif_buf_read16 (gif_buf_read16
          (gif_buf_read16 bs2).2).2).2).1
        paletteLocal := false }
      _ f1 f2 _ _ r1 hti hw v16a.symm v16b.symm v16c.symm v16d.symm hlen hSe
      h1 hok hfp
    exact ⟨r2, hr2, hem⟩

set_option maxRecDepth 8000 in
/-- C2 (counterexample): on the single-frame stream, the first getFrame
call decodes the canvas to bytes 1 0, but after rewind the second call
leaves byte 1 at the prior buffer value 7 instead of rewriting the 0:
processed_first_frame stays true across gd_rewind, so the replayed
frame skips every pixel whose index equals the default transparent
index 0. -/
theorem C2_counterexample :
    (ce2r1.map fun r => r.frame) = some [1, 0] ∧
    (ce2r2.map fun r => r.frame) = some [1, 7] ∧ (0 : Nat) ≠ 7 :=
  ⟨by decide, by decide, by decide⟩

/-- C2 (amended): after open, getFrame, rewind, getFrame on a stream
whose first block is an image block, the second call re-reads the same
code stream (its emitted pixel sequence is identical), but it runs with
processed_first_frame already true: a canvas byte whose last emitted
index differs from the (zero-initialised) gce.tindex gets the same
value as in the first call, which wrote every last emission; a byte all
of whose emissions carry index gce.tindex keeps the second buffer's
prior content. -/
theorem C2_amended (d : List Nat) (gif : gd_GIF) (bs0 : BufState) (fuel : Nat)
    (frame1 frame2 : List Nat) (r1 : FrameRes)
    (hopen : gd_open_gif d = some (gif, bs0))
    (hsep : d.getD gif.anim_start 0 = 44)
    (h1 : gd_get_frame (fuel + 1) gif frame1 bs0 = some r1)
    (hok : r1.ok = true)
    (hfp : r1.bs.file_pos ≤ d.length) :
    ∃ r2, gd_get_frame (fuel + 1) r1.gif frame2 (gd_rewind r1.gif r1.bs) = some r2 ∧
      r2.emits = r1.emits ∧
      r1.gif.processed_first_frame = true ∧
      (∀ q e, q < frame2.length → lastEmitAt q r1.emits = some e →
        gif.gce.tindex ≠ e.2.2 → r2.frame.getD q 0 = e.2.2) ∧
      (∀ q e, q < frame1.length → lastEmitAt q r1.emits = some e →
        r1.frame.getD q 0 = e.2.2) ∧
      (∀ q, (∀ e ∈ r1.emits, e.2.1 = q → e.2.2 = gif.gce.tindex) →
        r2.frame.getD q 0 = frame2.getD q 0) := by
  obtain ⟨o_fp, o_pf, o_tab, o_gce, o_data, o_len⟩ := gd_open_fields d gif bs0 hopen
  have hanim : gif.anim_start < d.length := by
    by_contra hh
    push_neg at hh
    rw [getD_out hh] at hsep
    exact absurd hsep (by decide)
  have hInv0 : Inv d bs0 := gd_open_inv d gif bs0 hopen (by rw [o_fp]; omega)
  have hsep1 : (gif_buf_read1 bs0).1 = 44 := by
    rw [(read1_spec d bs0 hInv0 (by rw [o_fp]; exact hanim)).1, o_fp]
    exact hsep
  have h1' := h1
  rw [gd_get_frame_image fuel gif frame1 bs0 hsep1] at h1'
  rcases hri1 : read_image fuel gif frame1 (gif_buf_read1 bs0).2 with _ | rr1
  · rw [hri1] at h1'
    simp at h1'
  · rw [hri1] at h1'
    simp only [Option.map_some'] at h1'
    have hr1eq := Option.some.inj h1'
    have e_gif : r1.gif = rr1.gif := by rw [← hr1eq]
    have e_frame : r1.frame = rr1.frame := by rw [← hr1eq]
    have e_bs : r1.bs = rr1.bs := by rw [← hr1eq]
    have e_em : r1.emits = rr1.emits := by rw [← hr1eq]
    have e_ok2 : rr1.ok = true := by
      rw [← hr1eq] at hok
      exact hok
    obtain ⟨ri_gce, ri_w, ri_anim, ri_pf, ri_len, ri_data, ri_fp⟩ :=
      read_image_gif fuel gif frame1 (gif_buf_read1 bs0).2 rr1 hri1
    have hfrm1 := read_image_frame fuel gif frame1 (gif_buf_read1 bs0).2 rr1 hri1
    have hdata1 : r1.bs.fd.data = d := by
      rw [e_bs, ri_data, read1_data, o_data]
    have hanim1 : r1.gif.anim_start = gif.anim_start := by rw [e_gif, ri_anim]
    have hpf2 : r1.gif.processed_first_frame = true := by
      rw [e_gif]
      exact ri_pf
    have hti2 : r1.gif.gce.tindex = gif.gce.tindex := by rw [e_gif, ri_gce]
    have hInv2 : Inv d (gd_rewind r1.gif r1.bs) := by
      refine ⟨le_refl _, hdata1, ?_, ?_, ?_⟩
      · show r1.gif.anim_start = r1.gif.anim_start +
          (r1.bs.gif_buf_last_idx - r1.bs.gif_buf_last_idx)
        omega
      · show r1.gif.anim_start ≤ d.length
        rw [hanim1]
        omega
      · intro j hj
        exact absurd
          (show j < r1.bs.gif_buf_last_idx - r1.bs.gif_buf_last_idx from hj)
          (by omega)
    have hSim0 : Sim d bs0 (gd_rewind r1.gif r1.bs) :=
      ⟨hInv0, hInv2, by show bs0.file_pos = r1.gif.anim_start; rw [o_fp, hanim1]⟩
    have hsep2 : (gif_buf_read1 (gd_rewind r1.gif r1.bs)).1 = 44 := by
      rw [(read1_spec d _ hInv2
        (by show r1.gif.anim_start < d.length; rw [hanim1]; exact hanim)).1]
      show d.getD r1.gif.anim_start 0 = 44
      rw [hanim1]
      exact hsep
    obtain ⟨_, hSim1⟩ := read1_sim d bs0 (gd_rewind r1.gif r1.bs) hSim0
      (by rw [o_fp]; exact hanim)
    obtain ⟨rr2, hri2, hem2⟩ := read_image_sim d fuel gif r1.gif frame1 frame2
      (gif_buf_read1 bs0).2 (gif_buf_read1 (gd_rewind r1.gif r1.bs)).2 rr1
      hti2 (by rw [e_gif, ri_w]) (by rw [e_gif, ri_len])
      hSim1 hri1 e_ok2 (by rw [← e_bs]; exact hfp)
    have hfrm2 := read_image_frame fuel r1.gif frame2
      (gif_buf_read1 (gd_rewind r1.gif r1.bs)).2 rr2 hri2
    refine ⟨{ code := 1, gif := rr2.gif, frame := rr2.frame, bs := rr2.bs,
              emits := rr2.emits, trace := rr2.trace, ok := rr2.ok },
      ?_, ?_, hpf2, ?_, ?_, ?_⟩
    · rw [gd_get_frame_image fuel r1.gif frame2 (gd_rewind r1.gif r1.bs) hsep2, hri2]
      rfl
    · show rr2.emits = r1.emits
      rw [hem2]
      exact e_em.symm
    · intro q e hq hlast hne
      show rr2.frame.getD q 0 = e.2.2
      rw [hfrm2, hpf2, hti2, hem2, ← e_em]
      exact foldl_condWrite_last true gif.gce.tindex r1.emits frame2 q e hq hlast
        (by simp [hne])
    · intro q e hq hlast
      show r1.frame.getD q 0 = e.2.2
      rw [e_frame, hfrm1, o_pf]
      refine foldl_condWrite_last false gif.gce.tindex rr1.emits frame1 q e hq ?_
        (by simp)
      rw [← e_em]
      exact hlast
    · intro q hall
      show rr2.frame.getD q 0 = frame2.getD q 0
      rw [hfrm2, hpf2, hti2, hem2, ← e_em]
      exact foldl_condWrite_skip true gif.gce.tindex r1.emits frame2 q
        (fun e he heq => ⟨rfl, hall e he heq⟩)

set_option maxRecDepth 8000 in
/-- C2 (witness): the amended statement evaluated on the single-frame
stream: open ce2data, decode its frame into [7, 7], rewind and decode
again into a fresh [7, 7]; the theorem applies with all hypotheses
checked by evaluation. -/
theorem C2_witness :
    ∃ r2, gd_get_frame (63 + 1) c2wit_r1.gif [7, 7]
        (gd_rewind c2wit_r1.gif c2wit_r1.bs) = some r2 ∧
      r2.emits = c2wit_r1.emits ∧
      c2wit_r1.gif.processed_first_frame = true ∧
      (∀ q e, q < ([7, 7] : List Nat).length → lastEmitAt q c2wit_r1.emits = some e →
        ce2open.1.gce.tindex ≠ e.2.2 → r2.frame.getD q 0 = e.2.2) ∧
      (∀ q e, q < ([7, 7] : List Nat).length → lastEmitAt q c2wit_r1.emits = some e →
        c2wit_r1.frame.getD q 0 = e.2.2) ∧
      (∀ q, (∀ e ∈ c2wit_r1.emits, e.2.1 = q → e.2.2 = ce2open.1.gce.tindex) →
        r2.frame.getD q 0 = ([7, 7] : List Nat).getD q 0) :=
  C2_amended ce2data ce2open.1 ce2open.2 63 [7, 7] [7, 7] c2wit_r1
    (opt_getD_eq _ default (by decide)) (by decide)
    (opt_getD_eq _ default (by decide)) (by decide) (by decide)
end FlickOut
